import Mathlib

/-!
Verification development for the email-notification core of the repository
(`zerver/lib/email_notifications.py`).

The Python source is shallowly embedded below.  Conventions used throughout:

* Python strings are Lean `String`s, but every string operation that the
  source performs (splitting on newlines, lower-casing, joining) is
  implemented here over the underlying `List Char`, mirroring CPython's
  behaviour on the relevant inputs.
* External collaborators (the relational store, the URL-encoding helpers,
  the `re` regex engine, `lxml` parsing/serialisation, BeautifulSoup,
  translation lookup, ...) are fields of an `Externals` structure; the
  embedded functions are parameterised over them exactly at the points
  where the source calls them.
* Fallible Python code (assertions, `[0]` indexing, attribute errors)
  is embedded with `Except String`, the error string naming the failure.
-/

set_option maxHeartbeats 1000000

/-- Python `str.lower()` restricted to the character-wise case mapping
(`Char.toLower`), which agrees with CPython on the ASCII topic names used
throughout the source. -/
def pyLower (s : String) : String := String.mk (s.data.map Char.toLower)

/-- Python `content.split("\n")` on the underlying character list.  Like
CPython, splitting the empty string yields `[[]]` (one empty line). -/
def splitNlChars : List Char → List (List Char)
  | [] => [[]]
  | c :: rest =>
    if c = '\n' then [] :: splitNlChars rest
    else
      match splitNlChars rest with
      | [] => [[c]]
      | l :: ls => (c :: l) :: ls

/-- Python `"\n".join(lines)` on character lists. -/
def joinNlChars : List (List Char) → List Char
  | [] => []
  | [l] => l
  | l :: ls => l ++ '\n' :: joinNlChars ls

/-- Characters admitted in the language tag of a code fence
(`[a-zA-Z0-9_+-./#]` in the source regex). -/
def isLangChar (c : Char) : Bool :=
  c.isAlphanum || c = '_' || c = '+' || c = '-' || c = '.' || c = '/' || c = '#'

/-- Modelled from the spec: the fence-marker pattern `FENCE_RE` imported
from `zerver/lib/markdown/fenced_code.py`, whose source is not part of this
repository sample.  Per the spec, a fence line starts with a run of at
least three identical fence characters (backtick or tilde); the run is the
`fence` group, and after optional spaces a language tag follows (the `lang`
group, possibly empty).  Returns `some (fence, lang)` on a match. -/
def fenceMatch (line : List Char) : Option (List Char × List Char) :=
  match line with
  | [] => none
  | c :: _ =>
    if c = '`' || c = '~' then
      let fence := line.takeWhile (fun d => d = c)
      if 3 ≤ fence.length then
        let rest := (line.dropWhile (fun d => d = c)).dropWhile (fun d => d = ' ')
        some (fence, rest.takeWhile isLangChar)
      else none
    else none

/-- The localized redaction line `f"({spoiler_title})"` inserted by
`fix_spoilers_in_text`. -/
def spoilerTitleLine (spoiler_title : List Char) : List Char :=
  '(' :: (spoiler_title ++ [')'])

/-- The line-processing loop of `fix_spoilers_in_text` (source lines
156-170): the first component of the state is Python's `open_fence`
variable (`None` or the fence string of the currently open spoiler, which
is always non-empty, so Python's `not open_fence` is `open_fence = none`
here). -/
def fix_spoilers_lines (spoiler_title : List Char) :
    Option (List Char) → List (List Char) → List (List Char)
  | _, [] => []
  | open_fence, line :: rest =>
    match fenceMatch line with
    | some (fence, lang) =>
      if lang = "spoiler".data then
        line :: spoilerTitleLine spoiler_title ::
          fix_spoilers_lines spoiler_title (some fence) rest
      else if some fence = open_fence then
        line :: fix_spoilers_lines spoiler_title none rest
      else
        fix_spoilers_lines spoiler_title open_fence rest
    | none =>
      match open_fence with
      | none => line :: fix_spoilers_lines spoiler_title none rest
      | some f => fix_spoilers_lines spoiler_title (some f) rest

/-- `fix_spoilers_in_text(content, language)` (source lines 151-171).  The
translation lookup `_("Open Zulip to see the spoiler content")` under
`override_language(language)` is the external collaborator `translate`. -/
def fix_spoilers_in_text (translate : String → String → String)
    (content : String) (language : String) : String :=
  let spoiler_title := translate language "Open Zulip to see the spoiler content"
  String.mk (joinNlChars
    (fix_spoilers_lines spoiler_title.data none (splitNlChars content.data)))

/-- `add_quote_prefix_in_text(content)` (source lines 174-184). -/
def add_quote_prefix_in_text (content : String) : String :=
  String.mk (joinNlChars
    ((splitNlChars content.data).map (fun line => '>' :: ' ' :: line)))

/-! Basic lemmas about line splitting and joining. -/

theorem splitNlChars_ne_nil (cs : List Char) : splitNlChars cs ≠ [] := by
  induction cs with
  | nil => simp [splitNlChars]
  | cons c rest ih =>
    simp only [splitNlChars]
    split
    · simp
    · split
      · simp
      · simp

theorem mem_splitNlChars_not_nl (cs : List Char) :
    ∀ l ∈ splitNlChars cs, '\n' ∉ l := by
  induction cs with
  | nil =>
    intro l hl
    simp only [splitNlChars, List.mem_singleton] at hl
    simp [hl]
  | cons c rest ih =>
    intro l hl
    simp only [splitNlChars] at hl
    by_cases hc : c = '\n'
    · rw [if_pos hc] at hl
      rcases List.mem_cons.mp hl with hcase | hcase
      · simp [hcase]
      · exact ih l hcase
    · rw [if_neg hc] at hl
      rcases hsp : splitNlChars rest with - | ⟨l0, ls⟩
      · exact absurd hsp (splitNlChars_ne_nil rest)
      · rw [hsp] at hl
        rcases List.mem_cons.mp hl with hcase | hcase
        · subst hcase
          intro hmem
          rcases List.mem_cons.mp hmem with hx | hx
          · exact hc hx.symm
          · exact ih l0 (hsp ▸ List.mem_cons_self l0 ls) hx
        · exact ih l (hsp ▸ List.mem_cons_of_mem l0 hcase)

theorem joinNlChars_splitNlChars (cs : List Char) :
    joinNlChars (splitNlChars cs) = cs := by
  induction cs with
  | nil => rfl
  | cons c rest ih =>
    simp only [splitNlChars]
    by_cases hc : c = '\n'
    · subst hc
      rw [if_pos rfl]
      rcases hsp : splitNlChars rest with - | ⟨l0, ls⟩
      · exact absurd hsp (splitNlChars_ne_nil rest)
      · rw [hsp] at ih
        simp only [joinNlChars, List.nil_append]
        rw [ih]
    · rw [if_neg hc]
      rcases hsp : splitNlChars rest with - | ⟨l0, ls⟩
      · exact absurd hsp (splitNlChars_ne_nil rest)
      · rw [hsp] at ih
        rcases ls with - | ⟨l1, ls⟩
        · simpa [joinNlChars] using congrArg (c :: ·) ih
        · simpa [joinNlChars] using congrArg (c :: ·) ih

theorem splitNlChars_no_nl (l : List Char) (h : '\n' ∉ l) :
    splitNlChars l = [l] := by
  induction l with
  | nil => rfl
  | cons c rest ih =>
    have hc : c ≠ '\n' := fun hx => h (hx ▸ List.mem_cons_self c rest)
    have hrest : '\n' ∉ rest := fun hm => h (List.mem_cons_of_mem c hm)
    simp only [splitNlChars, if_neg hc, ih hrest]

theorem splitNlChars_append_nl (l : List Char) (cs : List Char) (h : '\n' ∉ l) :
    splitNlChars (l ++ '\n' :: cs) = l :: splitNlChars cs := by
  induction l with
  | nil => simp [splitNlChars]
  | cons c rest ih =>
    have hc : c ≠ '\n' := fun hx => h (hx ▸ List.mem_cons_self c rest)
    have hrest : '\n' ∉ rest := fun hm => h (List.mem_cons_of_mem c hm)
    rw [List.cons_append]
    simp only [splitNlChars, if_neg hc]
    rw [ih hrest]

theorem splitNlChars_joinNlChars (ls : List (List Char)) (hne : ls ≠ [])
    (hnl : ∀ l ∈ ls, '\n' ∉ l) : splitNlChars (joinNlChars ls) = ls := by
  induction ls with
  | nil => exact absurd rfl hne
  | cons l rest ih =>
    rcases rest with - | ⟨l1, rest⟩
    · exact splitNlChars_no_nl l (hnl l (List.mem_cons_self l []))
    · have h1 : joinNlChars (l :: l1 :: rest) = l ++ '\n' :: joinNlChars (l1 :: rest) := rfl
      rw [h1, splitNlChars_append_nl l _ (hnl l (List.mem_cons_self l _))]
      rw [ih (by simp) (fun x hx => hnl x (List.mem_cons_of_mem l hx))]

/-! Lemmas about the spoiler line-processing loop. -/

theorem fenceMatch_spoilerTitleLine (t : List Char) :
    fenceMatch (spoilerTitleLine t) = none := rfl

theorem mem_fix_spoilers_lines (t : List Char) (ls : List (List Char)) :
    ∀ s l, l ∈ fix_spoilers_lines t s ls → l ∈ ls ∨ l = spoilerTitleLine t := by
  induction ls with
  | nil => intro s l hl; simp [fix_spoilers_lines] at hl
  | cons line rest ih =>
    intro s l hl
    rcases hfm : fenceMatch line with - | ⟨fence, lang⟩
    · rcases s with - | ⟨f⟩
      · rw [show fix_spoilers_lines t none (line :: rest)
            = line :: fix_spoilers_lines t none rest by
            simp [fix_spoilers_lines, hfm]] at hl
        rcases List.mem_cons.mp hl with hcase | hcase
        · exact Or.inl (hcase ▸ List.mem_cons_self line rest)
        · rcases ih none l hcase with hx | hx
          · exact Or.inl (List.mem_cons_of_mem line hx)
          · exact Or.inr hx
      · rw [show fix_spoilers_lines t (some f) (line :: rest)
            = fix_spoilers_lines t (some f) rest by
            simp [fix_spoilers_lines, hfm]] at hl
        rcases ih (some f) l hl with hx | hx
        · exact Or.inl (List.mem_cons_of_mem line hx)
        · exact Or.inr hx
    · by_cases hsp : lang = "spoiler".data
      · rw [show fix_spoilers_lines t s (line :: rest)
            = line :: spoilerTitleLine t :: fix_spoilers_lines t (some fence) rest by
            simp [fix_spoilers_lines, hfm, hsp]] at hl
        rcases List.mem_cons.mp hl with hcase | hcase
        · exact Or.inl (hcase ▸ List.mem_cons_self line rest)
        · rcases List.mem_cons.mp hcase with hx | hx
          · exact Or.inr hx
          · rcases ih (some fence) l hx with hy | hy
            · exact Or.inl (List.mem_cons_of_mem line hy)
            · exact Or.inr hy
      · by_cases hcl : some fence = s
        · rw [show fix_spoilers_lines t s (line :: rest)
              = line :: fix_spoilers_lines t none rest by
              simp [fix_spoilers_lines, hfm, hsp, hcl]] at hl
          rcases List.mem_cons.mp hl with hcase | hcase
          · exact Or.inl (hcase ▸ List.mem_cons_self line rest)
          · rcases ih none l hcase with hx | hx
            · exact Or.inl (List.mem_cons_of_mem line hx)
            · exact Or.inr hx
        · rw [show fix_spoilers_lines t s (line :: rest)
              = fix_spoilers_lines t s rest by
              simp [fix_spoilers_lines, hfm, hsp, hcl]] at hl
          rcases ih s l hl with hx | hx
          · exact Or.inl (List.mem_cons_of_mem line hx)
          · exact Or.inr hx

theorem fix_spoilers_lines_idem (t : List Char) (ls : List (List Char)) :
    ∀ s, fix_spoilers_lines t s (fix_spoilers_lines t s ls)
      = fix_spoilers_lines t s ls := by
  induction ls with
  | nil => intro s; rfl
  | cons line rest ih =>
    intro s
    rcases hfm : fenceMatch line with - | ⟨fence, lang⟩
    · rcases s with - | ⟨f⟩
      · rw [show fix_spoilers_lines t none (line :: rest)
            = line :: fix_spoilers_lines t none rest by
            simp [fix_spoilers_lines, hfm]]
        rw [show fix_spoilers_lines t none (line :: fix_spoilers_lines t none rest)
            = line :: fix_spoilers_lines t none (fix_spoilers_lines t none rest) by
            simp [fix_spoilers_lines, hfm]]
        rw [ih none]
      · rw [show fix_spoilers_lines t (some f) (line :: rest)
            = fix_spoilers_lines t (some f) rest by
            simp [fix_spoilers_lines, hfm]]
        exact ih (some f)
    · by_cases hsp : lang = "spoiler".data
      · rw [show fix_spoilers_lines t s (line :: rest)
            = line :: spoilerTitleLine t :: fix_spoilers_lines t (some fence) rest by
            simp [fix_spoilers_lines, hfm, hsp]]
        rw [show fix_spoilers_lines t s
              (line :: spoilerTitleLine t :: fix_spoilers_lines t (some fence) rest)
            = line :: spoilerTitleLine t ::
                fix_spoilers_lines t (some fence)
                  (fix_spoilers_lines t (some fence) rest) by
            simp [fix_spoilers_lines, hfm, hsp, fenceMatch_spoilerTitleLine]]
        rw [ih (some fence)]
      · by_cases hcl : some fence = s
        · rw [show fix_spoilers_lines t s (line :: rest)
              = line :: fix_spoilers_lines t none rest by
              simp [fix_spoilers_lines, hfm, hsp, hcl]]
          rw [show fix_spoilers_lines t s (line :: fix_spoilers_lines t none rest)
              = line :: fix_spoilers_lines t none (fix_spoilers_lines t none rest) by
              simp [fix_spoilers_lines, hfm, hsp, hcl]]
          rw [ih none]
        · rw [show fix_spoilers_lines t s (line :: rest)
              = fix_spoilers_lines t s rest by
              simp [fix_spoilers_lines, hfm, hsp, hcl]]
          exact ih s

/-- C9: for every input text and language, applying `fix_spoilers_in_text`
twice yields the same output as applying it once (no duplicated redaction
placeholder lines); the localized spoiler title delivered by the external
translation lookup for the language is assumed newline-free, as every real
translation of a one-line message is. -/
theorem fix_spoilers_in_text_idem (translate : String → String → String)
    (language content : String)
    (htitle : '\n' ∉ (translate language "Open Zulip to see the spoiler content").data) :
    fix_spoilers_in_text translate
        (fix_spoilers_in_text translate content language) language
      = fix_spoilers_in_text translate content language := by
  unfold fix_spoilers_in_text
  set t := (translate language "Open Zulip to see the spoiler content").data with ht
  set out := fix_spoilers_lines t none (splitNlChars content.data) with hout
  show String.mk (joinNlChars
      (fix_spoilers_lines t none (splitNlChars (String.mk (joinNlChars out)).data)))
    = String.mk (joinNlChars out)
  have hdata : (String.mk (joinNlChars out)).data = joinNlChars out := rfl
  rw [hdata]
  rcases hcase : out with - | ⟨l0, ls⟩
  · show String.mk (joinNlChars (fix_spoilers_lines t none (splitNlChars []))) = _
    show String.mk (joinNlChars (fix_spoilers_lines t none [[]])) = _
    rfl
  · have hne : out ≠ [] := by rw [hcase]; simp
    have hnl : ∀ l ∈ out, '\n' ∉ l := by
      intro l hl
      rcases mem_fix_spoilers_lines t (splitNlChars content.data) none l (hout ▸ hl) with hx | hx
      · exact mem_splitNlChars_not_nl content.data l hx
      · rw [hx]
        intro hmem
        simp only [spoilerTitleLine, List.mem_cons, List.mem_append,
          List.mem_singleton] at hmem
        rcases hmem with hy | hy | hy
        · exact absurd hy.symm (by decide)
        · exact htitle hy
        · exact absurd hy (by decide)
    rw [← hcase, splitNlChars_joinNlChars out hne hnl]
    rw [hout, fix_spoilers_lines_idem]

/-- Witness for C9 at a concrete input: one spoiler region with trailing
text, processed twice. -/
theorem fix_spoilers_in_text_idem_witness :
    fix_spoilers_in_text (fun _ m => m)
        (fix_spoilers_in_text (fun _ m => m)
          "```spoiler title\nhidden\n```\nafter" "en") "en"
      = fix_spoilers_in_text (fun _ m => m)
          "```spoiler title\nhidden\n```\nafter" "en" :=
  fix_spoilers_in_text_idem (fun _ m => m) "en"
    "```spoiler title\nhidden\n```\nafter" (by decide)

theorem fix_spoilers_lines_drop_body (t f lg closeLine : List Char)
    (post : List (List Char)) (hclose : fenceMatch closeLine = some (f, lg))
    (hlg : lg ≠ "spoiler".data) :
    ∀ body : List (List Char), (∀ l ∈ body, fenceMatch l = none) →
      fix_spoilers_lines t (some f) (body ++ closeLine :: post)
        = closeLine :: fix_spoilers_lines t none post := by
  intro body
  induction body with
  | nil =>
    intro _
    rw [List.nil_append]
    simp [fix_spoilers_lines, hclose, hlg]
  | cons l body ih =>
    intro hb
    rw [List.cons_append]
    rw [show fix_spoilers_lines t (some f) (l :: (body ++ closeLine :: post))
        = fix_spoilers_lines t (some f) (body ++ closeLine :: post) by
        simp [fix_spoilers_lines, hb l (List.mem_cons_self l body)]]
    exact ih (fun x hx => hb x (List.mem_cons_of_mem l hx))

/-- C8 (amended): over the line decomposition used by
`fix_spoilers_in_text`, every non-fence line before a properly fenced
spoiler region is preserved unchanged and in place, the localized
redaction line is inserted immediately after the opening fence, the lines
strictly between the opening fence and its matching closing fence (same
fence string) are dropped, the closing fence is kept, and processing
continues after the region.  (The original claim's stronger statement,
that *every* line outside spoiler regions is preserved, fails: fence
lines that neither open a spoiler nor close the currently open one are
dropped even outside any spoiler region, see the counterexample.) -/
theorem fix_spoilers_lines_spoiler_region (t : List Char)
    (pre body post : List (List Char)) (openLine closeLine f lg : List Char)
    (hpre : ∀ l ∈ pre, fenceMatch l = none)
    (hopen : fenceMatch openLine = some (f, "spoiler".data))
    (hbody : ∀ l ∈ body, fenceMatch l = none)
    (hclose : fenceMatch closeLine = some (f, lg))
    (hlg : lg ≠ "spoiler".data) :
    fix_spoilers_lines t none (pre ++ openLine :: (body ++ closeLine :: post))
      = pre ++ openLine :: spoilerTitleLine t :: closeLine ::
          fix_spoilers_lines t none post := by
  induction pre with
  | nil =>
    rw [List.nil_append, List.nil_append]
    rw [show fix_spoilers_lines t none (openLine :: (body ++ closeLine :: post))
        = openLine :: spoilerTitleLine t ::
            fix_spoilers_lines t (some f) (body ++ closeLine :: post) by
        simp [fix_spoilers_lines, hopen]]
    rw [fix_spoilers_lines_drop_body t f lg closeLine post hclose hlg body hbody]
  | cons l pre ih =>
    rw [List.cons_append]
    rw [show fix_spoilers_lines t none (l :: (pre ++ openLine :: (body ++ closeLine :: post)))
        = l :: fix_spoilers_lines t none (pre ++ openLine :: (body ++ closeLine :: post)) by
        simp [fix_spoilers_lines, hpre l (List.mem_cons_self l pre)]]
    rw [ih (fun x hx => hpre x (List.mem_cons_of_mem l hx))]
    rfl

/-- Counterexample to C8 as stated: an ordinary (non-spoiler) code fence
line lies outside every spoiler region, yet `fix_spoilers_in_text` deletes
both fence lines of the code block — the output keeps only the interior
line, so content outside spoiler regions is altered. -/
theorem fix_spoilers_in_text_drops_plain_fences :
    fix_spoilers_in_text (fun _ m => m) "```python\nx = 1\n```" "en" = "x = 1"
      ∧ ("```python\nx = 1\n```" : String) ≠ "x = 1" := by
  constructor
  · decide
  · decide

/-- Witness for the amended C8 at a concrete input: one leading plain
line, a spoiler region with one hidden line, and one trailing line. -/
theorem fix_spoilers_lines_spoiler_region_witness :
    fix_spoilers_lines "T".data none
        (["a".data] ++ "```spoiler".data :: (["h".data] ++ "```".data :: ["z".data]))
      = ["a".data] ++ "```spoiler".data :: spoilerTitleLine "T".data :: "```".data ::
          fix_spoilers_lines "T".data none ["z".data] :=
  fix_spoilers_lines_spoiler_region "T".data ["a".data] ["h".data] ["z".data]
    "```spoiler".data "```".data "```".data [] (by decide) (by decide)
    (by decide) (by decide) (by decide)

/-! Data model: the Django model rows referenced by the source, reduced to
the fields the source reads. -/

inductive RecipientType : Type where
  | personal
  | huddle
  | stream
deriving DecidableEq

/-- A `Recipient` row: `type` is `Recipient.PERSONAL`, `Recipient.HUDDLE`
or `Recipient.STREAM`; `type_id` is the stream id for stream recipients. -/
structure Recipient where
  id : Nat
  type : RecipientType
  type_id : Nat
deriving DecidableEq

/-- The sender fields of a `UserProfile` row read through `message.sender`. -/
structure UserBrief where
  id : Nat
  full_name : String
  email : String
deriving DecidableEq

/-- A `Stream` row (named `StreamInfo` here: `Stream` collides with a core
Lean name). -/
structure StreamInfo where
  id : Nat
  name : String
deriving DecidableEq

structure Realm where
  uri : String
  name : String
  message_content_allowed_in_email_notifications : Bool
deriving DecidableEq

structure UserProfile where
  id : Nat
  full_name : String
  realm : Realm
  default_language : String
  emojiset : String
  message_content_in_email_notifications : Bool
  realm_name_in_notifications : Bool
  is_bot : Bool
  enable_offline_email_notifications : Bool
deriving DecidableEq

/-- A `Message` row.  `topic` is `message.topic_name()`; `rendered_content`
is non-optional here because `build_message_payload` asserts it is not
`None` before use. -/
structure Message where
  id : Nat
  sender : UserBrief
  recipient : Recipient
  topic : String
  date_sent : Nat
  content : String
  rendered_content : String
deriving DecidableEq

def Message.sender_id (m : Message) : Nat := m.sender.id

def Message.recipient_id (m : Message) : Nat := m.recipient.id

/-- `Message.is_stream_message()`. -/
def Message.is_stream_message (m : Message) : Bool := m.recipient.type = .stream

/-- Python `sep.join(items)`. -/
def pyJoin (sep : String) : List String → String
  | [] => ""
  | [s] => s
  | s :: rest => s ++ sep ++ pyJoin sep rest

/-- The group-conversation display-name computation inlined in
`do_send_missedmessage_events_reply_in_zulip` (source lines 466-478), as a
function of the `other_recipients` name list.  Python's
`len(other_recipients) - 2` is integer subtraction, hence the `Int` cast. -/
def huddle_display_name (other_recipients : List String) : String :=
  if other_recipients.length = 2 then
    pyJoin " and " other_recipients
  else if other_recipients.length = 3 then
    other_recipients.getD 0 "" ++ ", " ++ other_recipients.getD 1 "" ++ ", and "
      ++ other_recipients.getD 2 ""
  else
    pyJoin ", " (other_recipients.take 2) ++ ", and "
      ++ toString ((other_recipients.length : Int) - 2) ++ " others"

/-- C5: for a group (huddle) bucket, the participant summary over the
other-participant name list is "A and B" for 2 others, "A, B, and C" for
3 others, and "A, B, and N others" with N the total number of others minus
2, built from the first two names, for more than 3 others. -/
theorem huddle_display_name_spec :
    (∀ a b : String, huddle_display_name [a, b] = a ++ " and " ++ b)
  ∧ (∀ a b c : String, huddle_display_name [a, b, c] = a ++ ", " ++ b ++ ", and " ++ c)
  ∧ (∀ (a b : String) (rest : List String), 2 ≤ rest.length →
      huddle_display_name (a :: b :: rest)
        = a ++ ", " ++ b ++ ", and " ++ toString (rest.length : Int) ++ " others") := by
  refine ⟨?_, ?_, ?_⟩
  · intro a b
    simp [huddle_display_name, pyJoin]
  · intro a b c
    simp [huddle_display_name, pyJoin]
  · intro a b rest h
    have h2 : (a :: b :: rest).length ≠ 2 := by
      simp only [List.length_cons]; omega
    have h3 : (a :: b :: rest).length ≠ 3 := by
      simp only [List.length_cons]; omega
    have htake : (a :: b :: rest).take 2 = [a, b] := by
      simp [List.take]
    have hcast : ((a :: b :: rest).length : Int) - 2 = (rest.length : Int) := by
      simp only [List.length_cons]
      push_cast
      ring
    rw [huddle_display_name, if_neg h2, if_neg h3, htake, hcast]
    simp [pyJoin]

/-- Witness for C5 at concrete participant lists of sizes 2, 3 and 4. -/
theorem huddle_display_name_spec_witness :
    huddle_display_name ["A", "B"] = "A and B"
  ∧ huddle_display_name ["A", "B", "C"] = "A, B, and C"
  ∧ huddle_display_name ["A", "B", "C", "D"] = "A, B, and 2 others" := by
  refine ⟨?_, ?_, ?_⟩
  · rw [huddle_display_name_spec.1 "A" "B"]; decide
  · rw [huddle_display_name_spec.2.1 "A" "B" "C"]; decide
  · rw [huddle_display_name_spec.2.2 "A" "B" ["C", "D"] (by decide)]; decide

/-! The lxml HTML fragment model.  An element carries its tag, its
attribute dictionary (unique keys, insertion order), its leading text,
its child elements and its tail text (`lxml`'s `.text` / `.tail`). -/

inductive HtmlElement : Type where
  | elem (tag : String) (attrs : List (String × String)) (text : Option String)
         (children : List HtmlElement) (tail : Option String)

@[simp] def HtmlElement.tag : HtmlElement → String
  | .elem t _ _ _ _ => t

@[simp] def HtmlElement.attrs : HtmlElement → List (String × String)
  | .elem _ a _ _ _ => a

@[simp] def HtmlElement.text : HtmlElement → Option String
  | .elem _ _ tx _ _ => tx

@[simp] def HtmlElement.children : HtmlElement → List HtmlElement
  | .elem _ _ _ cs _ => cs

@[simp] def HtmlElement.tail : HtmlElement → Option String
  | .elem _ _ _ _ tl => tl

/-- `elem.get(name)`: attribute lookup. -/
def getAttr (e : HtmlElement) (name : String) : Option String :=
  e.attrs.lookup name

/-- `elem.set(name, value)` on the attribute dictionary: replace in place,
or append if absent. -/
def setAttrList (name value : String) : List (String × String) → List (String × String)
  | [] => [(name, value)]
  | (k, v) :: rest =>
    if k = name then (k, value) :: rest else (k, v) :: setAttrList name value rest

def setAttr (e : HtmlElement) (name value : String) : HtmlElement :=
  match e with
  | .elem t a tx cs tl => .elem t (setAttrList name value a) tx cs tl

/-- `del elem.attrib[name]` (keys are unique). -/
def delAttrList (name : String) : List (String × String) → List (String × String)
  | [] => []
  | (k, v) :: rest => if k = name then rest else (k, v) :: delAttrList name rest

/-- Whitespace for `normalize-space`-style class-list splitting. -/
def isWsChar (c : Char) : Bool := c = ' ' || c = '\t' || c = '\n' || c = '\r'

/-- Split a class attribute value into its whitespace-separated words. -/
def splitWsChars (cs : List Char) : List (List Char) :=
  match cs with
  | [] => []
  | c :: rest =>
    if isWsChar c then splitWsChars rest
    else (c :: rest.takeWhile (fun d => !isWsChar d))
      :: splitWsChars (rest.dropWhile (fun d => !isWsChar d))
termination_by cs.length
decreasing_by
  · simp only [List.length_cons]; omega
  · simp only [List.length_cons]
    have := List.Sublist.length_le (List.dropWhile_sublist (fun d => !isWsChar d) (l := rest))
    omega

/-- The word-level class test used by lxml's `find_class`/`cssselect`
(an element matches class `w` when `w` occurs in its space-separated
`class` list). -/
def hasClassWord (e : HtmlElement) (w : String) : Bool :=
  match getAttr e "class" with
  | some v => (splitWsChars v.data).contains w.data
  | none => false

mutual

/-- Does the element or any descendant match class `w` (lxml `find_class`
is `descendant-or-self`)? -/
def hasClassWordTree (w : String) : HtmlElement → Bool
  | .elem t a tx cs tl => hasClassWord (.elem t a tx cs tl) w || hasClassWordTreeList w cs

def hasClassWordTreeList (w : String) : List HtmlElement → Bool
  | [] => false
  | c :: rest => hasClassWordTree w c || hasClassWordTreeList w rest

end

/-- Python-truthiness of an `lxml` text value (`if self.tail:`): a
contribution only when present and non-empty. -/
def tailContrib : Option String → Option String
  | none => none
  | some s => if s = "" then none else some s

/-- Sequential composition of text contributions from consecutively
dropped siblings. -/
def combineContrib : Option String → Option String → Option String
  | none, y => y
  | some a, none => some a
  | some a, some b => some (a ++ b)

/-- `(target or '') + contrib`, the `lxml` tail/text join. -/
def applyContrib (target : Option String) : Option String → Option String
  | none => target
  | some s => some (target.getD "" ++ s)

mutual

/-- The else-branch of the inline-image policy (source lines 95-97):
`drop_tree` every element whose class list contains
`message_inline_image`, anywhere below the given element.  A dropped
element's (truthy) tail joins the tail of the previous kept sibling, or
the parent's text when there is none — `lxml`'s `drop_tree`. -/
def scrubElem : HtmlElement → HtmlElement
  | .elem t a tx cs tl =>
    let r := scrubChildren cs
    .elem t a (applyContrib tx r.1) r.2 tl

/-- Returns the pending text contribution of the dropped prefix (to be
joined into the parent's text) and the processed children. -/
def scrubChildren : List HtmlElement → Option String × List HtmlElement
  | [] => (none, [])
  | c :: rest =>
    if hasClassWord c "message_inline_image" then
      let r := scrubChildren rest
      (combineContrib (tailContrib c.tail) r.1, r.2)
    else
      let c2 := scrubElem c
      let r := scrubChildren rest
      (none,
        (match c2 with
         | .elem t a tx cs tl => HtmlElement.elem t a tx cs (applyContrib tl r.1)) :: r.2)

end

/-- The scrubbing pass over a parsed fragment; `drop_tree` asserts a
parent exists, so a fragment root that itself matches the class is an
`AssertionError`. -/
def scrub_inline_images (fragment : HtmlElement) : Except String HtmlElement :=
  if hasClassWord fragment "message_inline_image" then
    .error "AssertionError: drop_tree on the fragment root"
  else .ok (scrubElem fragment)

/-- Does a link match `re.match("/?#narrow/", link)`? -/
def isNarrowLink (link : List Char) : Bool :=
  "#narrow/".data.isPrefixOf link || "/#narrow/".data.isPrefixOf link

/-- `re.sub(r"^/?#narrow/", base_url + "/#narrow/", link)`. -/
def rewriteNarrow (base_url : String) (link : String) : String :=
  if "/#narrow/".data.isPrefixOf link.data then
    base_url ++ "/#narrow/" ++ String.mk (link.data.drop 9)
  else if "#narrow/".data.isPrefixOf link.data then
    base_url ++ "/#narrow/" ++ String.mk (link.data.drop 8)
  else link

/-- The link attributes yielded by `lxml`'s `iterlinks` on the markup the
source handles. -/
def linkAttrNames : List String := ["href", "src"]

/-- The per-element body of the narrow-link loop (source lines 64-72):
rewrite each narrow link in place and mirror it into the `title`
attribute when one is set. -/
def fixNarrowAttrs (base_url : String) (e : HtmlElement) : HtmlElement :=
  linkAttrNames.foldl
    (fun e attrib =>
      match getAttr e attrib with
      | some link =>
        if isNarrowLink link.data then
          let link2 := rewriteNarrow base_url link
          let e2 := setAttr e attrib link2
          match getAttr e2 "title" with
          | some _ => setAttr e2 "title" link2
          | none => e2
        else e
      | none => e)
    e

mutual

def fixNarrowLinks (base_url : String) : HtmlElement → HtmlElement
  | .elem t a tx cs tl =>
    match fixNarrowAttrs base_url (.elem t a tx cs tl) with
    | .elem t2 a2 tx2 _ tl2 => .elem t2 a2 tx2 (fixNarrowLinksList base_url cs) tl2

def fixNarrowLinksList (base_url : String) : List HtmlElement → List HtmlElement
  | [] => []
  | c :: rest => fixNarrowLinks base_url c :: fixNarrowLinksList base_url rest

end

/-- The per-element body of `make_links_absolute(base_url)`: every link
attribute is resolved against the base with the external `urljoin`. -/
def makeAbsAttrs (urljoin : String → String → String) (base_url : String)
    (e : HtmlElement) : HtmlElement :=
  linkAttrNames.foldl
    (fun e attrib =>
      match getAttr e attrib with
      | some link => setAttr e attrib (urljoin base_url link)
      | none => e)
    e

mutual

def makeLinksAbsolute (urljoin : String → String → String) (base_url : String) :
    HtmlElement → HtmlElement
  | .elem t a tx cs tl =>
    match makeAbsAttrs urljoin base_url (.elem t a tx cs tl) with
    | .elem t2 a2 tx2 _ tl2 =>
      .elem t2 a2 tx2 (makeLinksAbsoluteList urljoin base_url cs) tl2

def makeLinksAbsoluteList (urljoin : String → String → String) (base_url : String) :
    List HtmlElement → List HtmlElement
  | [] => []
  | c :: rest =>
    makeLinksAbsolute urljoin base_url c :: makeLinksAbsoluteList urljoin base_url rest

end

/-- `inner.find("a")`: first direct child with the given tag. -/
def findChildTag (e : HtmlElement) (t : String) : Option HtmlElement :=
  e.children.find? (fun c => c.tag == t)

/-- The condition of source line 77:
`len(fragment) == 1 and fragment[0].get("class") == "message_inline_image"`
(an exact string comparison, unlike the word-level `find_class`). -/
def singleImageCond (fragment : HtmlElement) : Bool :=
  match fragment.children with
  | [inner] => getAttr inner "class" == some "message_inline_image"
  | _ => false

/-- The then-branch of the inline-image policy (source lines 83-89):
`inner.clear()` (which erases attributes, text, children and tail),
retag as `p`, and append a plain hyperlink built by
`e.A(image_link, href=image_link, target="_blank", **title_attr)`. -/
def singleImageRewrite (fragment inner : HtmlElement) : Except String HtmlElement :=
  match findChildTag inner "a" with
  | none => .error "AttributeError: NoneType object has no attribute get"
  | some aEl =>
    match getAttr aEl "href" with
    | none => .error "TypeError: e.A argument is None"
    | some image_link =>
      let title_attr : List (String × String) :=
        match getAttr aEl "title" with
        | none => []
        | some t => [("title", t)]
      let newA : HtmlElement :=
        .elem "a" ([("href", image_link), ("target", "_blank")] ++ title_attr)
          (some image_link) [] none
      let inner2 : HtmlElement := .elem "p" [] none [newA] none
      match fragment with
      | .elem t a tx _ tl => .ok (.elem t a tx [inner2] tl)

/-- `relative_to_full_url(fragment, base_url)` (source lines 57-99):
narrow-link rewriting, then the inline-image policy, then
`make_links_absolute(base_url)` through the external `urljoin`. -/
def relative_to_full_url (urljoin : String → String → String)
    (fragment : HtmlElement) (base_url : String) : Except String HtmlElement := do
  let fragment := fixNarrowLinks base_url fragment
  let fragment2 ←
    if singleImageCond fragment then
      match fragment.children with
      | [inner] => singleImageRewrite fragment inner
      | _ => .error "unreachable: singleImageCond"
    else
      scrub_inline_images fragment
  .ok (makeLinksAbsolute urljoin base_url fragment2)

/-! Structural lemmas about the attribute-rewriting passes. -/

theorem lookup_setAttrList_ne (name value m : String) (l : List (String × String))
    (h : m ≠ name) : (setAttrList name value l).lookup m = l.lookup m := by
  induction l with
  | nil =>
    simp only [setAttrList, List.lookup]
    simp [beq_eq_false_iff_ne.mpr h]
  | cons kv rest ih =>
    rcases kv with ⟨k, v⟩
    simp only [setAttrList]
    by_cases hk : k = name
    · rw [if_pos hk]
      subst hk
      simp only [List.lookup, beq_eq_false_iff_ne.mpr h]
    · rw [if_neg hk]
      by_cases hm : m = k
      · subst hm
        simp only [List.lookup, beq_self_eq_true]
      · simp only [List.lookup, beq_eq_false_iff_ne.mpr hm, ih]

theorem setAttr_shape (e : HtmlElement) (n v : String) :
    setAttr e n v = HtmlElement.elem e.tag (setAttrList n v e.attrs) e.text e.children e.tail := by
  rcases e with ⟨t, a, tx, cs, tl⟩
  rfl

/-- Every step of the narrow-link / absolutising passes only rewrites the
`href`, `src` and `title` attributes, so tag, text, children, tail and the
`class` attribute survive. -/
theorem fixNarrowAttrs_shape (b : String) (e : HtmlElement) :
    ∃ a2, fixNarrowAttrs b e = HtmlElement.elem e.tag a2 e.text e.children e.tail
      ∧ a2.lookup "class" = e.attrs.lookup "class" := by
  rcases e with ⟨t, a, tx, cs, tl⟩
  simp only [fixNarrowAttrs, linkAttrNames, List.foldl]
  set e0 : HtmlElement := .elem t a tx cs tl with he0
  have step : ∀ (e1 : HtmlElement) (attrib : String), attrib = "href" ∨ attrib = "src" →
      ∃ a2, (match getAttr e1 attrib with
        | some link =>
          if isNarrowLink link.data then
            let link2 := rewriteNarrow b link
            let e2 := setAttr e1 attrib link2
            match getAttr e2 "title" with
            | some _ => setAttr e2 "title" link2
            | none => e2
          else e1
        | none => e1)
        = HtmlElement.elem e1.tag a2 e1.text e1.children e1.tail
        ∧ a2.lookup "class" = e1.attrs.lookup "class" := by
    intro e1 attrib hattr
    rcases hget : getAttr e1 attrib with - | ⟨link⟩
    · exact ⟨e1.attrs, by rcases e1 with ⟨t1, a1, tx1, cs1, tl1⟩; simp, rfl⟩
    · by_cases hn : isNarrowLink link.data
      · simp only [hn, if_true]
        have hne : ("class" : String) ≠ attrib := by
          rcases hattr with h | h <;> rw [h] <;> decide
        rcases hget2 : getAttr (setAttr e1 attrib (rewriteNarrow b link)) "title" with - | ⟨told⟩
        · refine ⟨setAttrList attrib (rewriteNarrow b link) e1.attrs, ?_, ?_⟩
          · simp [setAttr_shape]
          · exact lookup_setAttrList_ne attrib _ "class" e1.attrs hne
        · refine ⟨setAttrList "title" (rewriteNarrow b link)
              (setAttrList attrib (rewriteNarrow b link) e1.attrs), ?_, ?_⟩
          · simp [setAttr_shape]
          · rw [lookup_setAttrList_ne "title" _ "class" _ (by decide)]
            exact lookup_setAttrList_ne attrib _ "class" e1.attrs hne
      · simp only [hn, if_false]
        exact ⟨e1.attrs, by rcases e1 with ⟨t1, a1, tx1, cs1, tl1⟩; simp, rfl⟩
  rcases step e0 "href" (Or.inl rfl) with ⟨a1, h1, hc1⟩
  rcases step (HtmlElement.elem e0.tag a1 e0.text e0.children e0.tail) "src" (Or.inr rfl)
    with ⟨a2, h2, hc2⟩
  rw [h1, h2]
  exact ⟨a2, rfl, by simpa using hc2.trans hc1⟩

theorem makeAbsAttrs_shape (uj : String → String → String) (b : String) (e : HtmlElement) :
    ∃ a2, makeAbsAttrs uj b e = HtmlElement.elem e.tag a2 e.text e.children e.tail
      ∧ a2.lookup "class" = e.attrs.lookup "class" := by
  rcases e with ⟨t, a, tx, cs, tl⟩
  simp only [makeAbsAttrs, linkAttrNames, List.foldl]
  set e0 : HtmlElement := .elem t a tx cs tl with he0
  have step : ∀ (e1 : HtmlElement) (attrib : String), attrib = "href" ∨ attrib = "src" →
      ∃ a2, (match getAttr e1 attrib with
        | some link => setAttr e1 attrib (uj b link)
        | none => e1)
        = HtmlElement.elem e1.tag a2 e1.text e1.children e1.tail
        ∧ a2.lookup "class" = e1.attrs.lookup "class" := by
    intro e1 attrib hattr
    rcases hget : getAttr e1 attrib with - | ⟨link⟩
    · exact ⟨e1.attrs, by rcases e1 with ⟨t1, a1, tx1, cs1, tl1⟩; simp, rfl⟩
    · have hne : ("class" : String) ≠ attrib := by
        rcases hattr with h | h <;> rw [h] <;> decide
      refine ⟨setAttrList attrib (uj b link) e1.attrs, ?_, ?_⟩
      · simp [setAttr_shape]
      · exact lookup_setAttrList_ne attrib _ "class" e1.attrs hne
  rcases step e0 "href" (Or.inl rfl) with ⟨a1, h1, hc1⟩
  rcases step (HtmlElement.elem e0.tag a1 e0.text e0.children e0.tail) "src" (Or.inr rfl)
    with ⟨a2, h2, hc2⟩
  rw [h1, h2]
  exact ⟨a2, rfl, by simpa using hc2.trans hc1⟩

theorem hasClassWord_congr (t t2 : String) (a a2 : List (String × String))
    (tx tx2 : Option String) (cs cs2 : List HtmlElement) (tl tl2 : Option String)
    (w : String) (h : a2.lookup "class" = a.lookup "class") :
    hasClassWord (.elem t2 a2 tx2 cs2 tl2) w = hasClassWord (.elem t a tx cs tl) w := by
  simp only [hasClassWord, getAttr, HtmlElement.attrs, h]

theorem fixNarrowLinks_shape (b : String) (t : String) (a : List (String × String))
    (tx : Option String) (cs : List HtmlElement) (tl : Option String) :
    ∃ a2, fixNarrowLinks b (.elem t a tx cs tl)
        = HtmlElement.elem t a2 tx (fixNarrowLinksList b cs) tl
      ∧ a2.lookup "class" = a.lookup "class" := by
  rcases fixNarrowAttrs_shape b (.elem t a tx cs tl) with ⟨a2, hsh, hc⟩
  refine ⟨a2, ?_, by simpa using hc⟩
  simp only [fixNarrowLinks]
  rw [hsh]
  simp

theorem hasClassWord_fixNarrowLinks (b : String) (e : HtmlElement) (w : String) :
    hasClassWord (fixNarrowLinks b e) w = hasClassWord e w := by
  rcases e with ⟨t, a, tx, cs, tl⟩
  rcases fixNarrowLinks_shape b t a tx cs tl with ⟨a2, hsh, hc⟩
  rw [hsh]
  exact hasClassWord_congr t t a a2 tx tx cs (fixNarrowLinksList b cs) tl tl w hc

theorem getAttr_class_fixNarrowLinks (b : String) (e : HtmlElement) :
    getAttr (fixNarrowLinks b e) "class" = getAttr e "class" := by
  rcases e with ⟨t, a, tx, cs, tl⟩
  rcases fixNarrowLinks_shape b t a tx cs tl with ⟨a2, hsh, hc⟩
  rw [hsh]
  simpa [getAttr] using hc

theorem singleImageCond_fixNarrowLinks (b : String) (e : HtmlElement) :
    singleImageCond (fixNarrowLinks b e) = singleImageCond e := by
  rcases e with ⟨t, a, tx, cs, tl⟩
  rcases fixNarrowLinks_shape b t a tx cs tl with ⟨a2, hsh, hc⟩
  rw [hsh]
  rcases cs with - | ⟨inner, rest⟩
  · rfl
  · rcases rest with - | ⟨c2, rest⟩
    · simp only [singleImageCond, HtmlElement.children, fixNarrowLinksList]
      rw [getAttr_class_fixNarrowLinks]
    · rfl

theorem hasClassWordTree_tail_irrel (w t : String) (a : List (String × String))
    (tx : Option String) (cs : List HtmlElement) (tl tl2 : Option String) :
    hasClassWordTree w (.elem t a tx cs tl2) = hasClassWordTree w (.elem t a tx cs tl) := by
  simp only [hasClassWordTree]
  rw [hasClassWord_congr t t a a tx tx cs cs tl tl2 w rfl]

mutual

theorem hasClassWordTree_scrubElem (e : HtmlElement)
    (h : hasClassWord e "message_inline_image" = false) :
    hasClassWordTree "message_inline_image" (scrubElem e) = false := by
  match e with
  | .elem t a tx cs tl =>
    simp only [scrubElem, hasClassWordTree]
    rw [hasClassWord_congr t t a a tx (applyContrib tx (scrubChildren cs).1)
      cs (scrubChildren cs).2 tl tl "message_inline_image" rfl]
    rw [h, hasClassWordTreeList_scrubChildren cs]
    rfl

theorem hasClassWordTreeList_scrubChildren (l : List HtmlElement) :
    hasClassWordTreeList "message_inline_image" (scrubChildren l).2 = false := by
  match l with
  | [] => rfl
  | c :: rest =>
    simp only [scrubChildren]
    by_cases hc : hasClassWord c "message_inline_image" = true
    · simp only [hc, if_true]
      exact hasClassWordTreeList_scrubChildren rest
    · have hcf : hasClassWord c "message_inline_image" = false := by
        simpa using hc
      simp only [hcf, Bool.false_eq_true, if_false]
      have hsc := hasClassWordTree_scrubElem c hcf
      rcases hsc2 : scrubElem c with ⟨t2, a2, tx2, cs2, tl2⟩
      rw [hsc2] at hsc
      simp only [hasClassWordTreeList]
      rw [hasClassWordTree_tail_irrel "message_inline_image" t2 a2 tx2 cs2 tl2
        (applyContrib tl2 (scrubChildren rest).1)]
      rw [hsc, hasClassWordTreeList_scrubChildren rest]
      rfl

end

theorem makeLinksAbsolute_shape (uj : String → String → String) (b : String)
    (t : String) (a : List (String × String)) (tx : Option String)
    (cs : List HtmlElement) (tl : Option String) :
    ∃ a2, makeLinksAbsolute uj b (.elem t a tx cs tl)
        = HtmlElement.elem t a2 tx (makeLinksAbsoluteList uj b cs) tl
      ∧ a2.lookup "class" = a.lookup "class" := by
  rcases makeAbsAttrs_shape uj b (.elem t a tx cs tl) with ⟨a2, hsh, hc⟩
  refine ⟨a2, ?_, by simpa using hc⟩
  simp only [makeLinksAbsolute]
  rw [hsh]
  simp

mutual

theorem hasClassWordTree_makeLinksAbsolute (uj : String → String → String)
    (b : String) (e : HtmlElement) (w : String) :
    hasClassWordTree w (makeLinksAbsolute uj b e) = hasClassWordTree w e := by
  match e with
  | .elem t a tx cs tl =>
    rcases makeLinksAbsolute_shape uj b t a tx cs tl with ⟨a2, hsh, hc⟩
    rw [hsh]
    simp only [hasClassWordTree]
    rw [hasClassWord_congr t t a a2 tx tx cs (makeLinksAbsoluteList uj b cs) tl tl w hc]
    rw [hasClassWordTreeList_makeLinksAbsolute uj b cs w]

theorem hasClassWordTreeList_makeLinksAbsolute (uj : String → String → String)
    (b : String) (l : List HtmlElement) (w : String) :
    hasClassWordTreeList w (makeLinksAbsoluteList uj b l) = hasClassWordTreeList w l := by
  match l with
  | [] => rfl
  | c :: rest =>
    simp only [makeLinksAbsoluteList, hasClassWordTreeList]
    rw [hasClassWordTree_makeLinksAbsolute uj b c w,
      hasClassWordTreeList_makeLinksAbsolute uj b rest w]

end

/-- The optional `title` attribute of the image anchor. -/
def titleAttrOf : Option String → List (String × String)
  | none => []
  | some tt => [("title", tt)]

/-- C7: in the HTML rewriter `relative_to_full_url`, if the entire fragment
is a single inline-image container, the container is replaced by a single
plain hyperlink whose text is the original image URL, whose `href` is that
URL resolved against the base (as `make_links_absolute` does to every
link), and whose caption (`title`) is preserved when present; otherwise
every inline-image container anywhere in the fragment is deleted together
with its whole subtree, so no container survives in the result. -/
theorem relative_to_full_url_inline_image_policy :
    (∀ (urljoin : String → String → String) (base_url link ct : String)
       (ctx : Option String) (topt : Option String) (atext : Option String)
       (achildren : List HtmlElement) (atail : Option String)
       (crest : List HtmlElement) (ctail : Option String),
      isNarrowLink link.data = false →
      relative_to_full_url urljoin
        (.elem "div" [] none
          [.elem ct [("class", "message_inline_image")] ctx
            (.elem "a" (("href", link) :: titleAttrOf topt) atext achildren atail
              :: crest) ctail] none) base_url
        = .ok (.elem "div" [] none
            [.elem "p" [] none
              [.elem "a"
                (("href", urljoin base_url link) :: ("target", "_blank") :: titleAttrOf topt)
                (some link) [] none] none] none))
  ∧ (∀ (urljoin : String → String → String) (fragment : HtmlElement) (base_url : String),
      hasClassWord fragment "message_inline_image" = false →
      singleImageCond fragment = false →
      (relative_to_full_url urljoin fragment base_url).map
          (hasClassWordTree "message_inline_image")
        = Except.ok false) := by
  constructor
  · intro urljoin base_url link ct ctx topt atext achildren atail crest ctail hnarrow
    rcases topt with - | ⟨tt⟩ <;>
      simp [relative_to_full_url, fixNarrowLinks, fixNarrowLinksList, fixNarrowAttrs,
        linkAttrNames, getAttr, setAttr, setAttrList, titleAttrOf, singleImageCond,
        findChildTag, singleImageRewrite, makeLinksAbsolute, makeAbsAttrs,
        makeLinksAbsoluteList, hnarrow, List.lookup, List.find?, bind, Except.bind]
  · intro urljoin fragment base_url h1 h2
    simp only [relative_to_full_url]
    rw [show singleImageCond (fixNarrowLinks base_url fragment) = false by
      rw [singleImageCond_fixNarrowLinks]; exact h2]
    simp only [Bool.false_eq_true, if_false]
    rw [show scrub_inline_images (fixNarrowLinks base_url fragment)
        = Except.ok (scrubElem (fixNarrowLinks base_url fragment)) by
      simp only [scrub_inline_images]
      rw [show hasClassWord (fixNarrowLinks base_url fragment) "message_inline_image" = false by
        rw [hasClassWord_fixNarrowLinks]; exact h1]
      simp]
    show (Except.ok (makeLinksAbsolute urljoin base_url
        (scrubElem (fixNarrowLinks base_url fragment)))).map
        (hasClassWordTree "message_inline_image") = Except.ok false
    simp only [Except.map]
    rw [hasClassWordTree_makeLinksAbsolute]
    rw [hasClassWordTree_scrubElem _ (by
      rw [hasClassWord_fixNarrowLinks]; exact h1)]

/-- Witness for C7 at a concrete fragment: a message whose whole body is
one inline-image container with a captioned image link. -/
theorem relative_to_full_url_inline_image_policy_witness :
    relative_to_full_url (fun b l => b ++ l)
      (.elem "div" [] none
        [.elem "div" [("class", "message_inline_image")] none
          [.elem "a" [("href", "/user_uploads/img.png"), ("title", "cap")]
            none [] none] none] none) "https://z"
      = .ok (.elem "div" [] none
          [.elem "p" [] none
            [.elem "a"
              [("href", "https://z/user_uploads/img.png"), ("target", "_blank"),
               ("title", "cap")]
              (some "/user_uploads/img.png") [] none] none] none) :=
  relative_to_full_url_inline_image_policy.1 (fun b l => b ++ l) "https://z"
    "/user_uploads/img.png" "div" none (some "cap") none [] none [] none (by decide)

/-! `fix_emojis(fragment, base_url, emojiset)` (source lines 102-126). -/

/-- `make_emoji_img_elem(emoji_span_elem)` (source lines 103-117): the
`re.search(r"emoji-(?P<emoji_code>\S+)", classes)` call is the external
`find_emoji_code`; a missing match is the source's `assert`;  `e.IMG` with
a `None` attribute value (missing span text or title) raises in lxml. -/
def make_emoji_img_elem (find_emoji_code : String → Option String)
    (base_url emojiset : String) (espan : HtmlElement) : Except String HtmlElement :=
  match getAttr espan "class" with
  | none => .error "TypeError: re.search on None"
  | some classes =>
    match find_emoji_code classes with
    | none => .error "AssertionError: make_emoji_img_elem"
    | some emoji_code =>
      let image_url := base_url ++ "/static/generated/emoji/images-" ++ emojiset
        ++ "-64/" ++ emoji_code ++ ".png"
      match espan.text, getAttr espan "title" with
      | some alt_code, some emoji_name =>
        .ok (.elem "img"
          [("alt", alt_code), ("src", image_url), ("title", emoji_name),
           ("style", "height: 20px;")] none [] espan.tail)
      | _, _ => .error "TypeError: e.IMG attribute is None"

/-- Does an element match the CSS selector `span.emoji`? -/
def isEmojiSpan (e : HtmlElement) : Bool :=
  e.tag == "span" && hasClassWord e "emoji"

mutual

/-- First loop of `fix_emojis`: replace every `span.emoji` descendant by
its image element (the replacement keeps the span's tail and is not
itself searched, matching the in-place `parent.replace`). -/
def fixEmojiSpans (find_emoji_code : String → Option String)
    (base_url emojiset : String) : HtmlElement → Except String HtmlElement
  | .elem t a tx cs tl => do
    let cs2 ← fixEmojiSpansList find_emoji_code base_url emojiset cs
    .ok (.elem t a tx cs2 tl)

def fixEmojiSpansList (find_emoji_code : String → Option String)
    (base_url emojiset : String) : List HtmlElement → Except String (List HtmlElement)
  | [] => .ok []
  | c :: rest =>
    if isEmojiSpan c then do
      let img ← make_emoji_img_elem find_emoji_code base_url emojiset c
      let rest2 ← fixEmojiSpansList find_emoji_code base_url emojiset rest
      .ok (img :: rest2)
    else do
      let c2 ← fixEmojiSpans find_emoji_code base_url emojiset c
      let rest2 ← fixEmojiSpansList find_emoji_code base_url emojiset rest
      .ok (c2 :: rest2)

end

mutual

/-- Second loop of `fix_emojis`: every remaining element whose class list
contains `emoji` (realm emoji images) loses its `class` attribute and
gains the fixed display height. -/
def fixRealmEmoji : HtmlElement → HtmlElement
  | .elem t a tx cs tl =>
    let cs2 := fixRealmEmojiList cs
    if hasClassWord (.elem t a tx cs tl) "emoji" then
      .elem t (setAttrList "style" "height: 20px;" (delAttrList "class" a)) tx cs2 tl
    else .elem t a tx cs2 tl

def fixRealmEmojiList : List HtmlElement → List HtmlElement
  | [] => []
  | c :: rest => fixRealmEmoji c :: fixRealmEmojiList rest

end

/-- `fix_emojis(fragment, base_url, emojiset)`: a fragment root that is
itself a `span.emoji` has no parent for `parent.replace`, an
`AttributeError`. -/
def fix_emojis (find_emoji_code : String → Option String)
    (fragment : HtmlElement) (base_url emojiset : String) : Except String HtmlElement :=
  if isEmojiSpan fragment then .error "AttributeError: NoneType has no attribute replace"
  else do
    let f2 ← fixEmojiSpans find_emoji_code base_url emojiset fragment
    .ok (fixRealmEmoji f2)

/-! `fix_spoilers_in_html(fragment, language)` (source lines 129-148). -/

/-- The `(spoiler_title)` span appended into the spoiler header
(`e.SPAN(f"({spoiler_title})", **e.CLASS("spoiler-title"), title=spoiler_title)`). -/
def spoilerSpan (spoiler_title : String) : HtmlElement :=
  .elem "span" [("class", "spoiler-title"), ("title", spoiler_title)]
    (some ("(" ++ spoiler_title ++ ")")) [] none

/-- Source lines 136-146 applied to the found header: locate the first
direct `p` child (`header.find("p")`); if none, append a fresh one;
otherwise add a trailing space (to the last child's tail, or to the `p`'s
own tail when it has no children — exactly the source's `rear`); then
append the spoiler span into the `p`. -/
def spoilerHeaderTransform (spoiler_title : String) (header : HtmlElement) : HtmlElement :=
  match header with
  | .elem t a tx cs tl =>
    match cs.find? (fun c => c.tag == "p") with
    | none =>
      .elem t a tx (cs ++ [.elem "p" [] none [spoilerSpan spoiler_title] none]) tl
    | some _ =>
      let addSpan : HtmlElement → HtmlElement := fun p =>
        match p with
        | .elem pt pa ptx pcs ptl =>
          match pcs.getLast? with
          | none =>
            .elem pt pa ptx [spoilerSpan spoiler_title] (some (ptl.getD "" ++ " "))
          | some lc =>
            let lc2 := match lc with
              | .elem t2 a2 tx2 cs2 tl2 =>
                HtmlElement.elem t2 a2 tx2 cs2 (some (tl2.getD "" ++ " "))
            .elem pt pa ptx (pcs.dropLast ++ [lc2, spoilerSpan spoiler_title]) ptl
      let rec replaceFirstP : List HtmlElement → List HtmlElement
        | [] => []
        | c :: rest =>
          if c.tag == "p" then addSpan c :: rest else c :: replaceFirstP rest
      .elem t a tx (replaceFirstP cs) tl

mutual

/-- `drop_tag` the first descendant (pre-order) whose class list contains
`w`, transforming it with `f` first; `none` when no descendant matches. -/
def dropTagFirstClass (w : String) (f : HtmlElement → HtmlElement) :
    HtmlElement → Option HtmlElement
  | .elem t a tx cs tl =>
    match dropTagFirstClassList w f tx [] cs with
    | some (tx2, cs2) => some (.elem t a tx2 cs2 tl)
    | none => none

/-- Walk a child list (with the parent text and the reversed already-kept
prefix); on the first class match, apply `f` and splice per lxml
`drop_tag`: the element's text joins the previous sibling's tail (or the
parent's text), its tail joins its last child's tail (or the same target
when childless), and its children take its place. -/
def dropTagFirstClassList (w : String) (f : HtmlElement → HtmlElement)
    (ptext : Option String) (acc : List HtmlElement) :
    List HtmlElement → Option (Option String × List HtmlElement)
  | [] => none
  | c :: rest =>
    if hasClassWord c w then
      match f c with
      | .elem _ _ tx2 cs2 tl2 =>
        match acc with
        | [] =>
          let ptext2 := applyContrib ptext (tailContrib tx2)
          match cs2.getLast? with
          | none => some (applyContrib ptext2 (tailContrib tl2), cs2 ++ rest)
          | some lc =>
            let lc2 := match lc with
              | .elem t3 a3 tx3 cs3 tl3 =>
                HtmlElement.elem t3 a3 tx3 cs3 (applyContrib tl3 (tailContrib tl2))
            some (ptext2, (cs2.dropLast ++ [lc2]) ++ rest)
        | prev :: accRest =>
          let prev2 := match prev with
            | .elem t3 a3 tx3 cs3 tl3 =>
              HtmlElement.elem t3 a3 tx3 cs3 (applyContrib tl3 (tailContrib tx2))
          match cs2.getLast? with
          | none =>
            let prev3 := match prev2 with
              | .elem t3 a3 tx3 cs3 tl3 =>
                HtmlElement.elem t3 a3 tx3 cs3 (applyContrib tl3 (tailContrib tl2))
            some (ptext, (prev3 :: accRest).reverse ++ cs2 ++ rest)
          | some lc =>
            let lc2 := match lc with
              | .elem t3 a3 tx3 cs3 tl3 =>
                HtmlElement.elem t3 a3 tx3 cs3 (applyContrib tl3 (tailContrib tl2))
            some (ptext, (prev2 :: accRest).reverse ++ (cs2.dropLast ++ [lc2]) ++ rest)
    else
      match dropTagFirstClass w f c with
      | some c2 => some (ptext, acc.reverse ++ c2 :: rest)
      | none => dropTagFirstClassList w f ptext (c :: acc) rest

end

mutual

/-- `drop_tree` the first descendant (pre-order) whose class list contains
`w`; `none` when no descendant matches. -/
def dropTreeFirstClass (w : String) : HtmlElement → Option HtmlElement
  | .elem t a tx cs tl =>
    match dropTreeFirstClassList w tx [] cs with
    | some (tx2, cs2) => some (.elem t a tx2 cs2 tl)
    | none => none

/-- As `dropTagFirstClassList` but removing the whole subtree: only the
dropped element's (truthy) tail is joined to the previous sibling's tail
or the parent's text. -/
def dropTreeFirstClassList (w : String) (ptext : Option String)
    (acc : List HtmlElement) :
    List HtmlElement → Option (Option String × List HtmlElement)
  | [] => none
  | c :: rest =>
    if hasClassWord c w then
      match acc with
      | [] => some (applyContrib ptext (tailContrib c.tail), rest)
      | prev :: accRest =>
        let prev2 := match prev with
          | .elem t3 a3 tx3 cs3 tl3 =>
            HtmlElement.elem t3 a3 tx3 cs3 (applyContrib tl3 (tailContrib c.tail))
        some (ptext, (prev2 :: accRest).reverse ++ rest)
    else
      match dropTreeFirstClass w c with
      | some c2 => some (ptext, acc.reverse ++ c2 :: rest)
      | none => dropTreeFirstClassList w ptext (c :: acc) rest

end

/-- Source lines 133-148 applied to one `spoiler-block` element:
`find_class("spoiler-header")[0]` / `find_class("spoiler-content")[0]`
raise `IndexError` when absent.  The renderer always emits the header and
the content as distinct proper descendants of the block; a block that
itself carries either class (where lxml's `descendant-or-self` search
would pick the block) is outside that contract and embedded as an
error. -/
def fixSpoilerBlock (spoiler_title : String) (s : HtmlElement) :
    Except String HtmlElement :=
  if hasClassWord s "spoiler-header" || hasClassWord s "spoiler-content" then
    .error "unsupported spoiler markup: block doubles as header or content"
  else
    match dropTagFirstClass "spoiler-header" (spoilerHeaderTransform spoiler_title) s with
    | none => .error "IndexError: list index out of range"
    | some s2 =>
      match dropTreeFirstClass "spoiler-content" s2 with
      | none => .error "IndexError: list index out of range"
      | some s3 => .ok s3

mutual

/-- The `find_class("spoiler-block")` loop, processed innermost-first:
every element whose class list contains `spoiler-block` has its header
retitled and its content dropped. -/
def fixSpoilersHtmlElem (spoiler_title : String) :
    HtmlElement → Except String HtmlElement
  | .elem t a tx cs tl => do
    let cs2 ← fixSpoilersHtmlList spoiler_title cs
    let e2 : HtmlElement := .elem t a tx cs2 tl
    if hasClassWord e2 "spoiler-block" then fixSpoilerBlock spoiler_title e2
    else .ok e2

def fixSpoilersHtmlList (spoiler_title : String) :
    List HtmlElement → Except String (List HtmlElement)
  | [] => .ok []
  | c :: rest => do
    let c2 ← fixSpoilersHtmlElem spoiler_title c
    let rest2 ← fixSpoilersHtmlList spoiler_title rest
    .ok (c2 :: rest2)

end

/-- `fix_spoilers_in_html(fragment, language)`. -/
def fix_spoilers_in_html (translate : String → String → String)
    (fragment : HtmlElement) (language : String) : Except String HtmlElement :=
  fixSpoilersHtmlElem (translate language "Open Zulip to see the spoiler content")
    fragment

/-- One entry of the `missed_messages` argument of
`do_send_missedmessage_events_reply_in_zulip`:
`dict(message=m, trigger=..., mentioned_user_group_id=...)`. -/
structure MsgInfo where
  message : Message
  trigger : Option String
  mentioned_user_group_id : Option Nat
deriving DecidableEq

/-- The external collaborators of the module, one field per call site:
the URL-encoding helpers (`zerver.lib.url_encoding`), the display-
recipient and stream lookups of the model layer, translation lookup, the
`re`/`lxml`/BeautifulSoup library primitives, the context-message store
queries, and the notification-data helpers.  `get_display_recipient` is
only called on personal/huddle recipients (where it returns the user
roster, never the stream-name string), so it is typed as the roster. -/
structure Externals where
  personal_narrow_url : Realm → UserBrief → String
  huddle_narrow_url : Realm → List Nat → String
  topic_narrow_url : Realm → StreamInfo → String → String
  stream_narrow_url : Realm → StreamInfo → String
  get_display_recipient : Recipient → List UserBrief
  streamById : Nat → StreamInfo
  translate : String → String → String
  urljoin : String → String → String
  fragment_fromstring : String → HtmlElement
  tostring : HtmlElement → String
  soup_prepend_sender : String → String → String
  sub_image_markdown : String → String
  sub_user_uploads : String → String → String
  find_emoji_code : String → Option String
  get_context_for_message : Message → List Message
  bulk_access_messages : UserProfile → List Message → List Message
  get_mentioned_user_group_name : List MsgInfo → UserProfile → Option String
  create_missed_message_address : UserProfile → Message → String
  one_click_unsubscribe_link : UserProfile → String → String
  get_topic_resolution_and_bare_name : String → Bool × String
  get_user_profile_by_id : Nat → UserProfile

/-! `build_message_list` (source lines 187-335). -/

/-- The `grouping` dictionary of `message_header`: `{"user": sender_id}`,
`{"huddle": recipient_id}` or `{"stream": recipient_id, "topic":
topic.lower()}`; distinct key sets make the three shapes distinct. -/
inductive Grouping : Type where
  | user (id : Nat)
  | huddle (id : Nat)
  | stream (id : Nat) (topic : String)
deriving DecidableEq

/-- The grouping key `message_header` assigns to a message. -/
def grouping_key (m : Message) : Grouping :=
  match m.recipient.type with
  | .personal => .user m.sender_id
  | .huddle => .huddle m.recipient_id
  | .stream => .stream m.recipient_id (pyLower m.topic)

/-- `sender_string(message)` (source lines 199-203). -/
def sender_string (message : Message) : String :=
  match message.recipient.type with
  | .stream => message.sender.full_name
  | .huddle => message.sender.full_name
  | .personal => ""

/-- `fix_plaintext_image_urls(content)` (source lines 205-209): a single
`re.sub` call, the external regex engine. -/
def fix_plaintext_image_urls (env : Externals) (content : String) : String :=
  env.sub_image_markdown content

/-- `get_narrow_url(user_profile, message, display_recipient, stream)`
(source lines 338-371); the `assert`s on the optional precomputed
arguments are embedded as errors. -/
def get_narrow_url (env : Externals) (user_profile : UserProfile) (message : Message)
    (display_recipient : Option (List UserBrief)) (stream : Option StreamInfo) :
    Except String String :=
  match message.recipient.type with
  | .personal =>
    if stream ≠ none then .error "AssertionError: get_narrow_url stream"
    else if display_recipient ≠ none then
      .error "AssertionError: get_narrow_url display_recipient"
    else .ok (env.personal_narrow_url user_profile.realm message.sender)
  | .huddle =>
    if stream ≠ none then .error "AssertionError: get_narrow_url stream"
    else
      let dr := display_recipient.getD (env.get_display_recipient message.recipient)
      let other_user_ids := (dr.filter (fun r => r.id ≠ user_profile.id)).map (fun r => r.id)
      .ok (env.huddle_narrow_url user_profile.realm other_user_ids)
  | .stream =>
    if display_recipient ≠ none then
      .error "AssertionError: get_narrow_url display_recipient"
    else
      let st := match stream with
        | some st => st
        | none => env.streamById message.recipient.type_id
      .ok (env.topic_narrow_url user_profile.realm st message.topic)

/-- The `header` dictionary built by `message_header` (source lines
252-283). -/
structure MessageHeader where
  grouping : Grouping
  plain : String
  html : String
  stream_message : Bool
deriving DecidableEq

def message_header (env : Externals) (user : UserProfile)
    (stream_map : Nat → Option StreamInfo) (message : Message) :
    Except String MessageHeader := do
  match message.recipient.type with
  | .personal =>
    let narrow_link ← get_narrow_url env user message none none
    let header := "You and " ++ message.sender.full_name
    let header_html := "<a style='color: #ffffff;' href='" ++ narrow_link ++ "'>"
      ++ header ++ "</a>"
    .ok { grouping := .user message.sender_id, plain := header, html := header_html,
          stream_message := message.recipient.type == .stream }
  | .huddle =>
    let display_recipient := env.get_display_recipient message.recipient
    let narrow_link ← get_narrow_url env user message (some display_recipient) none
    let other_recipients :=
      (display_recipient.filter (fun r => r.id ≠ user.id)).map (fun r => r.full_name)
    let header := "You and " ++ pyJoin ", " other_recipients
    let header_html := "<a style='color: #ffffff;' href='" ++ narrow_link ++ "'>"
      ++ header ++ "</a>"
    .ok { grouping := .huddle message.recipient_id, plain := header, html := header_html,
          stream_message := message.recipient.type == .stream }
  | .stream =>
    let stream_id := message.recipient.type_id
    let stream := match stream_map stream_id with
      | some st => st
      | none => env.streamById stream_id
    let narrow_link ← get_narrow_url env user message none (some stream)
    let header := stream.name ++ " > " ++ message.topic
    let stream_link := env.stream_narrow_url user.realm stream
    let header_html := "<a href='" ++ stream_link ++ "'>" ++ stream.name
      ++ "</a> > <a href='" ++ narrow_link ++ "'>" ++ message.topic ++ "</a>"
    .ok { grouping := .stream message.recipient_id (pyLower message.topic),
          plain := header, html := header_html,
          stream_message := message.recipient.type == .stream }

/-- One rendered message (`{"plain": ..., "html": ...}`), with the source
message kept alongside as a ghost field so the grouping structure can be
stated over messages. -/
structure ContentItem where
  message : Message
  plain : String
  html : String
deriving DecidableEq

/-- One sender block (`{"sender": ..., "content": [...]}`). -/
structure SenderBlock where
  sender : String
  content : List ContentItem
deriving DecidableEq

/-- One recipient block (`{"header": ..., "senders": [...]}`). -/
structure RecipientBlock where
  header : MessageHeader
  senders : List SenderBlock
deriving DecidableEq

/-- `build_message_payload(message, sender)` (source lines 226-246). -/
def build_message_payload (env : Externals) (user : UserProfile)
    (message : Message) (sender : Option String) : Except String ContentItem := do
  let plain := message.content
  let plain := fix_plaintext_image_urls env plain
  let plain := env.sub_user_uploads user.realm.uri plain
  let plain := fix_spoilers_in_text env.translate plain user.default_language
  let plain := add_quote_prefix_in_text plain
  let fragment := env.fragment_fromstring message.rendered_content
  let fragment ← relative_to_full_url env.urljoin fragment user.realm.uri
  let fragment ← fix_emojis env.find_emoji_code fragment user.realm.uri user.emojiset
  let fragment ← fix_spoilers_in_html env.translate fragment user.default_language
  let html := env.tostring fragment
  match sender with
  | some s =>
    if s ≠ "" then
      .ok { message := message, plain := s ++ ":\n" ++ plain,
            html := env.soup_prepend_sender s html }
    else .ok { message := message, plain := plain, html := html }
  | none => .ok { message := message, plain := plain, html := html }

/-- `build_sender_payload(message)` (source lines 248-250). -/
def build_sender_payload (env : Externals) (user : UserProfile) (message : Message) :
    Except String SenderBlock := do
  let sender := sender_string message
  let payload ← build_message_payload env user message (some sender)
  .ok { sender := sender, content := [payload] }

/-- One iteration of the collapsing loop (source lines 312-333). -/
def bml_step (env : Externals) (user : UserProfile)
    (stream_map : Nat → Option StreamInfo) (acc : List RecipientBlock)
    (message : Message) : Except String (List RecipientBlock) := do
  let header ← message_header env user stream_map message
  match acc.getLast? with
  | some last =>
    if last.header.grouping = header.grouping then
      let sender := sender_string message
      match last.senders.getLast? with
      | some sb =>
        if sb.sender = sender then do
          let payload ← build_message_payload env user message none
          .ok (acc.dropLast ++ [{ last with senders := last.senders.dropLast
            ++ [{ sb with content := sb.content ++ [payload] }] }])
        else do
          let sp ← build_sender_payload env user message
          .ok (acc.dropLast ++ [{ last with senders := last.senders ++ [sp] }])
      | none => .error "IndexError: sender_block[-1]"
    else do
      let sp ← build_sender_payload env user message
      .ok (acc ++ [{ header := header, senders := [sp] }])
  | none => do
    let sp ← build_sender_payload env user message
    .ok (acc ++ [{ header := header, senders := [sp] }])

def build_message_list_go (env : Externals) (user : UserProfile)
    (stream_map : Nat → Option StreamInfo) :
    List RecipientBlock → List Message → Except String (List RecipientBlock)
  | acc, [] => .ok acc
  | acc, m :: rest => do
    let acc2 ← bml_step env user stream_map acc m
    build_message_list_go env user stream_map acc2 rest

/-- `messages.sort(key=lambda message: message.date_sent)`: CPython's sort
is stable, and a stable sort by a key is unique, so the stable
`insertionSort` coincides with it. -/
def sortByDateSent (messages : List Message) : List Message :=
  List.insertionSort (fun m1 m2 => m1.date_sent ≤ m2.date_sent) messages

/-- `build_message_list(user, messages, stream_map)`. -/
def build_message_list (env : Externals) (user : UserProfile)
    (messages : List Message) (stream_map : Nat → Option StreamInfo) :
    Except String (List RecipientBlock) :=
  build_message_list_go env user stream_map [] (sortByDateSent messages)

/-- The messages a recipient block renders, in order. -/
def blockMessages (b : RecipientBlock) : List Message :=
  (b.senders.map (fun sb => sb.content.map (fun ci => ci.message))).flatten

/-! Lemmas for the grouping structure of `build_message_list`. -/

theorem message_header_grouping (env : Externals) (user : UserProfile)
    (stream_map : Nat → Option StreamInfo) (m : Message) (h : MessageHeader)
    (hok : message_header env user stream_map m = .ok h) :
    h.grouping = grouping_key m := by
  rcases hrec : m.recipient.type with - | - | -
  · simp only [message_header, hrec, get_narrow_url, bind, Except.bind] at hok
    simp only [grouping_key, hrec]
    simp at hok
    rw [← hok]
  · simp only [message_header, hrec, get_narrow_url, bind, Except.bind] at hok
    simp only [grouping_key, hrec]
    simp at hok
    rw [← hok]
  · simp only [message_header, hrec, get_narrow_url, bind, Except.bind] at hok
    simp only [grouping_key, hrec]
    simp at hok
    rw [← hok]

theorem build_message_payload_message (env : Externals) (user : UserProfile)
    (m : Message) (s : Option String) (p : ContentItem)
    (h : build_message_payload env user m s = .ok p) : p.message = m := by
  simp only [build_message_payload, bind, Except.bind] at h
  rcases h1 : relative_to_full_url env.urljoin (env.fragment_fromstring m.rendered_content)
      user.realm.uri with e1 | f1
  · simp only [h1] at h
    exact absurd h (by simp)
  · rcases h2 : fix_emojis env.find_emoji_code f1 user.realm.uri user.emojiset
        with e2 | f2
    · simp only [h1, h2] at h
      exact absurd h (by simp)
    · rcases h3 : fix_spoilers_in_html env.translate f2 user.default_language
          with e3 | f3
      · simp only [h1, h2, h3] at h
        exact absurd h (by simp)
      · rcases s with - | sv
        · simp only [h1, h2, h3] at h
          simp at h
          rw [← h]
        · simp only [h1, h2, h3] at h
          by_cases hs : sv ≠ ""
          · rw [if_pos hs] at h
            simp at h
            rw [← h]
          · rw [if_neg hs] at h
            simp at h
            rw [← h]

theorem build_sender_payload_spec (env : Externals) (user : UserProfile)
    (m : Message) (sp : SenderBlock)
    (h : build_sender_payload env user m = .ok sp) :
    sp.sender = sender_string m ∧ sp.content.map (fun ci => ci.message) = [m] := by
  simp only [build_sender_payload, bind, Except.bind] at h
  rcases h1 : build_message_payload env user m (some (sender_string m)) with e1 | p
  · simp only [h1] at h
    exact absurd h (by simp)
  · simp only [h1] at h
    simp at h
    have hm := build_message_payload_message env user m (some (sender_string m)) p h1
    rw [← h]
    simp [hm]

theorem eq_dropLast_append_of_getLast? {α : Type} (l : List α) (x : α)
    (h : l.getLast? = some x) : l = l.dropLast ++ [x] := by
  induction l with
  | nil => simp at h
  | cons c rest ih =>
    rcases rest with - | ⟨c2, rest⟩
    · simp at h
      simp [h]
    · rw [List.getLast?_cons_cons] at h
      have := ih h
      rw [List.dropLast_cons₂, List.cons_append, ← this]

theorem mem_of_getLast? {α : Type} (l : List α) (x : α) (h : l.getLast? = some x) :
    x ∈ l := by
  rw [eq_dropLast_append_of_getLast? l x h]
  simp

/-- Appending one message's payload to the trailing sender block appends
that message to the block's message list. -/
theorem blockMessages_extend_sender (last : RecipientBlock) (sb : SenderBlock)
    (p : ContentItem) (hsl : last.senders.getLast? = some sb) :
    blockMessages { last with senders := last.senders.dropLast
        ++ [{ sb with content := sb.content ++ [p] }] }
      = blockMessages last ++ [p.message] := by
  rcases last with ⟨hd, senders⟩
  simp only at hsl
  rw [show senders = senders.dropLast ++ [sb] from
    eq_dropLast_append_of_getLast? senders sb hsl]
  simp only [blockMessages, List.dropLast_append_of_ne_nil, List.map_append,
    List.flatten_append]
  simp [List.dropLast_concat]

theorem blockMessages_append_sender (last : RecipientBlock) (sp : SenderBlock) :
    blockMessages { last with senders := last.senders ++ [sp] }
      = blockMessages last ++ sp.content.map (fun ci => ci.message) := by
  rcases last with ⟨hd, senders⟩
  simp [blockMessages, List.map_append, List.flatten_append]

/-- Characterisation of one step of the collapsing loop: either the
message joins the trailing recipient block (same grouping key), or a new
block holding exactly that message is appended (different or no trailing
key). -/
theorem bml_step_spec (env : Externals) (user : UserProfile)
    (stream_map : Nat → Option StreamInfo) (acc : List RecipientBlock)
    (m : Message) (acc2 : List RecipientBlock)
    (h : bml_step env user stream_map acc m = .ok acc2) :
    (∃ last last2, acc.getLast? = some last ∧ acc2 = acc.dropLast ++ [last2]
      ∧ last2.header = last.header
      ∧ blockMessages last2 = blockMessages last ++ [m]
      ∧ grouping_key m = last.header.grouping)
    ∨ (∃ nb, acc2 = acc ++ [nb] ∧ blockMessages nb = [m]
        ∧ nb.header.grouping = grouping_key m
        ∧ ∀ last, acc.getLast? = some last →
            last.header.grouping ≠ grouping_key m) := by
  simp only [bml_step, bind, Except.bind] at h
  rcases hh : message_header env user stream_map m with e | header
  · simp only [hh] at h
    exact absurd h (by simp)
  · have hg : header.grouping = grouping_key m :=
      message_header_grouping env user stream_map m header hh
    simp only [hh] at h
    rcases hl : acc.getLast? with - | last <;> rw [hl] at h
    · rcases hsp : build_sender_payload env user m with e | sp
      · simp only [hsp] at h
        exact absurd h (by simp)
      · simp only [hsp] at h
        simp at h
        rcases build_sender_payload_spec env user m sp hsp with ⟨hsps, hspc⟩
        refine Or.inr ⟨{ header := header, senders := [sp] }, by rw [← h], ?_, by simpa using hg, ?_⟩
        · simp [blockMessages, hspc]
        · intro last hlast
          exact absurd hlast (by simp)
    · by_cases hgr : last.header.grouping = header.grouping
      · simp only [if_pos hgr] at h
        rcases hsl : last.senders.getLast? with - | sb <;> simp only [hsl] at h
        · exact absurd h (by simp)
        · by_cases hs : sb.sender = sender_string m
          · simp only [if_pos hs] at h
            rcases hp : build_message_payload env user m none with e | payload
            · simp only [hp] at h
              exact absurd h (by simp)
            · simp only [hp] at h
              simp at h
              refine Or.inl ⟨last, _, rfl, h.symm, rfl, ?_, by rw [hgr, hg]⟩
              rw [blockMessages_extend_sender last sb payload hsl,
                build_message_payload_message env user m none payload hp]
          · simp only [if_neg hs] at h
            rcases hsp : build_sender_payload env user m with e | sp
            · simp only [hsp] at h
              exact absurd h (by simp)
            · simp only [hsp] at h
              simp at h
              rcases build_sender_payload_spec env user m sp hsp with ⟨hsps, hspc⟩
              refine Or.inl ⟨last, _, rfl, h.symm, rfl, ?_, by rw [hgr, hg]⟩
              rw [blockMessages_append_sender last sp, hspc]
      · simp only [if_neg hgr] at h
        rcases hsp : build_sender_payload env user m with e | sp
        · simp only [hsp] at h
          exact absurd h (by simp)
        · simp only [hsp] at h
          simp at h
          rcases build_sender_payload_spec env user m sp hsp with ⟨hsps, hspc⟩
          refine Or.inr ⟨{ header := header, senders := [sp] }, by rw [← h], ?_, by simpa using hg, ?_⟩
          · simp [blockMessages, hspc]
          · intro last2 hlast2
            injection hlast2 with hlast2
            rw [← hlast2, ← hg]
            exact hgr

theorem build_message_list_go_spec (env : Externals) (user : UserProfile)
    (stream_map : Nat → Option StreamInfo) :
    ∀ (rest : List Message) (acc B : List RecipientBlock),
      (∀ b ∈ acc, blockMessages b ≠ [] ∧
        ∀ m ∈ blockMessages b, grouping_key m = b.header.grouping) →
      List.Chain' (fun b1 b2 => b1.header.grouping ≠ b2.header.grouping) acc →
      build_message_list_go env user stream_map acc rest = .ok B →
      ((B.map blockMessages).flatten = (acc.map blockMessages).flatten ++ rest)
      ∧ (∀ b ∈ B, blockMessages b ≠ [] ∧
          ∀ m ∈ blockMessages b, grouping_key m = b.header.grouping)
      ∧ List.Chain' (fun b1 b2 => b1.header.grouping ≠ b2.header.grouping) B := by
  intro rest
  induction rest with
  | nil =>
    intro acc B hinv hch h
    simp only [build_message_list_go] at h
    have hBacc : acc = B := by simpa using h
    subst hBacc
    exact ⟨by simp, hinv, hch⟩
  | cons m rest ih =>
    intro acc B hinv hch h
    simp only [build_message_list_go, bind, Except.bind] at h
    rcases hstep : bml_step env user stream_map acc m with e | acc2
    · simp only [hstep] at h
      exact absurd h (by simp)
    · simp only [hstep] at h
      rcases bml_step_spec env user stream_map acc m acc2 hstep with
        ⟨last, last2, hl, hacc2, hhdr, hbm, hgk⟩ | ⟨nb, hacc2, hbm, hgk, hne⟩
      · have hacc : acc = acc.dropLast ++ [last] :=
          eq_dropLast_append_of_getLast? acc last hl
        have hjoin : (acc2.map blockMessages).flatten
            = (acc.map blockMessages).flatten ++ [m] := by
          rw [hacc2]
          conv_rhs => rw [hacc]
          simp only [List.map_append, List.flatten_append, List.map_cons,
            List.map_nil]
          simp [hbm]
        have hinv2 : ∀ b ∈ acc2, blockMessages b ≠ [] ∧
            ∀ m2 ∈ blockMessages b, grouping_key m2 = b.header.grouping := by
          intro b hb
          rw [hacc2] at hb
          rcases List.mem_append.mp hb with hb2 | hb2
          · exact hinv b ((List.dropLast_sublist acc).subset hb2)
          · have hbb : b = last2 := by simpa using hb2
            subst hbb
            have hlast := hinv last (mem_of_getLast? acc last hl)
            constructor
            · rw [hbm]; simp
            · intro m2 hm2
              rw [hbm] at hm2
              rcases List.mem_append.mp hm2 with hm3 | hm3
              · rw [hhdr]; exact hlast.2 m2 hm3
              · have : m2 = m := by simpa using hm3
                subst this
                rw [hhdr]
                exact hgk
        have hch2 : List.Chain'
            (fun b1 b2 => b1.header.grouping ≠ b2.header.grouping) acc2 := by
          rw [hacc2]
          rw [hacc] at hch
          rw [List.chain'_append] at hch ⊢
          obtain ⟨hc1, hc2, hc3⟩ := hch
          refine ⟨hc1, List.chain'_singleton _, ?_⟩
          intro x hx y hy
          have hy2 : y = last2 := by
            have := hy
            simp at this
            exact this.symm
          subst hy2
          rw [hhdr]
          exact hc3 x hx last (by simp)
        rcases ih acc2 B hinv2 hch2 h with ⟨hj, hi, hc⟩
        refine ⟨?_, hi, hc⟩
        rw [hj, hjoin]
        simp
      · have hjoin : (acc2.map blockMessages).flatten
            = (acc.map blockMessages).flatten ++ [m] := by
          rw [hacc2]
          simp [hbm]
        have hinv2 : ∀ b ∈ acc2, blockMessages b ≠ [] ∧
            ∀ m2 ∈ blockMessages b, grouping_key m2 = b.header.grouping := by
          intro b hb
          rw [hacc2] at hb
          rcases List.mem_append.mp hb with hb2 | hb2
          · exact hinv b hb2
          · have hbb : b = nb := by simpa using hb2
            subst hbb
            refine ⟨by rw [hbm]; simp, ?_⟩
            intro m2 hm2
            rw [hbm] at hm2
            have : m2 = m := by simpa using hm2
            subst this
            rw [hgk]
        have hch2 : List.Chain'
            (fun b1 b2 => b1.header.grouping ≠ b2.header.grouping) acc2 := by
          rw [hacc2]
          rw [List.chain'_append]
          refine ⟨hch, List.chain'_singleton _, ?_⟩
          intro x hx y hy
          have hy2 : y = nb := by
            have := hy
            simp at this
            exact this.symm
          subst hy2
          rw [hgk]
          exact hne x (by simpa using hx)
        rcases ih acc2 B hinv2 hch2 h with ⟨hj, hi, hc⟩
        refine ⟨?_, hi, hc⟩
        rw [hj, hjoin]
        simp

/-- C1: for every input message list, `build_message_list` (which first
sorts by send time ascending, stably) returns one RecipientBlock per
maximal run of consecutive messages with equal grouping key (user for 1:1,
huddle recipient id for group, stream recipient id plus lower-cased topic
for stream): the blocks' message lists concatenate back to the time-sorted
input, every block is a non-empty run of the single grouping key its
header carries, and adjacent blocks carry distinct keys.  Hence two
messages land in the same RecipientBlock iff every message between them in
time order shares their grouping key, and non-adjacent runs with the same
key are never merged. -/
theorem build_message_list_grouping (env : Externals) (user : UserProfile)
    (messages : List Message) (stream_map : Nat → Option StreamInfo)
    (B : List RecipientBlock)
    (h : build_message_list env user messages stream_map = .ok B) :
    ((B.map blockMessages).flatten = sortByDateSent messages)
    ∧ (∀ b ∈ B, blockMessages b ≠ [] ∧
        ∀ m ∈ blockMessages b, grouping_key m = b.header.grouping)
    ∧ List.Chain' (fun b1 b2 => b1.header.grouping ≠ b2.header.grouping) B := by
  have hgo := build_message_list_go_spec env user stream_map
    (sortByDateSent messages) [] B (by simp) (by simp) h
  simpa using hgo

/-- A trivial instantiation of the external collaborators, used by the
concrete witnesses. -/
def trivEnv : Externals where
  personal_narrow_url := fun _ _ => ""
  huddle_narrow_url := fun _ _ => ""
  topic_narrow_url := fun _ _ _ => ""
  stream_narrow_url := fun _ _ => ""
  get_display_recipient := fun _ => []
  streamById := fun sid => ⟨sid, ""⟩
  translate := fun _ m => m
  urljoin := fun _ l => l
  fragment_fromstring := fun _ => .elem "div" [] none [] none
  tostring := fun _ => ""
  soup_prepend_sender := fun s h => "<b>" ++ s ++ "</b>: " ++ h
  sub_image_markdown := fun c => c
  sub_user_uploads := fun _ c => c
  find_emoji_code := fun _ => none
  get_context_for_message := fun _ => []
  bulk_access_messages := fun _ l => l
  get_mentioned_user_group_name := fun _ _ => none
  create_missed_message_address := fun _ _ => ""
  one_click_unsubscribe_link := fun _ _ => ""
  get_topic_resolution_and_bare_name := fun t => (false, t)
  get_user_profile_by_id := fun _ =>
    ⟨1, "Me", ⟨"https://z", "Realm", true⟩, "en", "google", true, true, false, true⟩

def userA : UserProfile :=
  ⟨1, "Me", ⟨"https://z", "Realm", true⟩, "en", "google", true, true, false, true⟩

def msgA : Message :=
  ⟨10, ⟨2, "Alice", "a@z"⟩, ⟨100, .personal, 1⟩, "", 5, "hi", "<p>hi</p>"⟩

/-- The single recipient block `build_message_list` produces for `msgA`. -/
def blockA : RecipientBlock :=
  { header := { grouping := .user 2, plain := "You and Alice",
                html := "<a style='color: #ffffff;' href=''>You and Alice</a>",
                stream_message := false },
    senders := [{ sender := "", content := [{ message := msgA, plain := "> hi", html := "" }] }] }

/-- Witness for C1 at a concrete one-message input. -/
theorem build_message_list_grouping_witness :
    build_message_list trivEnv userA [msgA] (fun _ => none) = .ok [blockA]
    ∧ (([blockA].map blockMessages).flatten = sortByDateSent [msgA]
      ∧ (∀ b ∈ [blockA], blockMessages b ≠ [] ∧
          ∀ m ∈ blockMessages b, grouping_key m = b.header.grouping)
      ∧ List.Chain' (fun b1 b2 => b1.header.grouping ≠ b2.header.grouping) [blockA]) :=
  ⟨rfl, build_message_list_grouping trivEnv userA [msgA] (fun _ => none)
    [blockA] rfl⟩

/-! `do_send_missedmessage_events_reply_in_zulip` (source lines 381-561). -/

/-- The Django settings the emitter reads (`EMAIL_GATEWAY_PATTERN` is a
string whose emptiness is its falsiness;  `FromAddress.NOREPLY` is carried
here as well). -/
structure Settings where
  email_gateway_pattern : String
  send_missed_message_emails_as_user : Bool
  noreply_address : String
deriving DecidableEq

/-- `message_content_allowed_in_missedmessage_emails(user_profile)`
(source lines 374-378). -/
def message_content_allowed_in_missedmessage_emails (user_profile : UserProfile) : Bool :=
  user_profile.realm.message_content_allowed_in_email_notifications
    && user_profile.message_content_in_email_notifications

/-- The context dictionary assembled by the emitter, restricted to the
keys this module writes.  Keys a branch may leave unset (`group_pm`,
`huddle_display_name`, `private_message`, the stream fields and the two
suppression flags) are `Option`/`false`-defaulted, mirroring a missing
key's falsiness in the template. -/
structure NotifContext where
  name : String
  message_count : Nat
  unsubscribe_link : String
  realm_name_in_notifications : Bool
  mention : Bool
  personal_mentioned : Bool
  wildcard_mentioned : Bool
  stream_email_notify : Bool
  mention_count : Nat
  mentioned_user_group_name : Option String
  reply_to_zulip : Bool
  narrow_url : String
  group_pm : Bool
  huddle_display_name : Option String
  private_message : Bool
  stream_name : Option String
  topic_name : Option String
  topic_resolved : Option Bool
  messages : List RecipientBlock
  sender_str : String
  realm_str : String
  show_message_content : Bool
  message_content_disabled_by_user : Option Bool
  message_content_disabled_by_realm : Option Bool
deriving DecidableEq

/-- The `email_dict` handed to `queue_json_publish("email_senders", ...)`;
`template` is the source's template-prefix field, and the reply-to
address is kept as its display-name/addr-spec parts. -/
structure EmailPayload where
  template : String
  to_user_ids : List Nat
  from_name : String
  from_address : String
  reply_to_name : String
  reply_to_address : String
  context : NotifContext
deriving DecidableEq

/-- The `(recipient_id, topic lower-cased)` pair of the emitter's
opening assertion (source lines 399-403). -/
def pairOf (m : Message) : Nat × String := (m.recipient_id, pyLower m.topic)

def assertMultipleRecipients : String := "AssertionError: Unexpectedly multiple recipients"

/-- Source lines 534-548: when exactly one sender remains and
`SEND_MISSED_MESSAGE_EMAILS_AS_USER` is set, the mail is sent as that
sender and `reply_to_zulip` is reset. -/
def sendAsUserOverride (settings : Settings) (senders : List UserBrief)
    (from_name0 : String) (context5 : NotifContext) : String × String × NotifContext :=
  if senders.length == 1 && settings.send_missed_message_emails_as_user then
    match senders with
    | sender :: _ =>
      (sender.full_name, sender.email, { context5 with reply_to_zulip := false })
    | [] => (from_name0, settings.noreply_address, context5)
  else (from_name0, settings.noreply_address, context5)

def do_send_missedmessage_events_reply_in_zulip (env : Externals)
    (settings : Settings) (user_profile : UserProfile)
    (missed_messages : List MsgInfo) (message_count : Nat) :
    Except String EmailPayload := do
  let recipients := (missed_messages.map (fun mi => pairOf mi.message)).dedup
  match missed_messages with
  | [] => .error assertMultipleRecipients
  | m0 :: _ =>
    if recipients.length ≠ 1 then .error assertMultipleRecipients
    else
      let context0 : NotifContext := {
        name := user_profile.full_name
        message_count := message_count
        unsubscribe_link := env.one_click_unsubscribe_link user_profile "missed_messages"
        realm_name_in_notifications := user_profile.realm_name_in_notifications
        mention := false
        personal_mentioned := false
        wildcard_mentioned := false
        stream_email_notify := false
        mention_count := 0
        mentioned_user_group_name := none
        reply_to_zulip := false
        narrow_url := ""
        group_pm := false
        huddle_display_name := none
        private_message := false
        stream_name := none
        topic_name := none
        topic_resolved := none
        messages := []
        sender_str := ""
        realm_str := ""
        show_message_content := true
        message_content_disabled_by_user := none
        message_content_disabled_by_realm := none }
      let mentioned_user_group_name :=
        env.get_mentioned_user_group_name missed_messages user_profile
      let triggers := missed_messages.map (fun mi => mi.trigger)
      let personal_mentioned := missed_messages.any
        (fun mi => mi.trigger == some "mentioned" && mi.mentioned_user_group_id == none)
      let context1 := { context0 with
        mention := triggers.contains (some "mentioned")
          || triggers.contains (some "wildcard_mentioned")
        personal_mentioned := personal_mentioned
        wildcard_mentioned := triggers.contains (some "wildcard_mentioned")
        stream_email_notify := triggers.contains (some "stream_email_notify")
        mention_count := triggers.count (some "mentioned")
          + triggers.count (some "wildcard_mentioned")
        mentioned_user_group_name := mentioned_user_group_name }
      let context2 := { context1 with
        reply_to_zulip := !(settings.email_gateway_pattern == "") }
      let reply_to_address := env.create_missed_message_address user_profile m0.message
      let reply_to_name := if reply_to_address = settings.noreply_address then "" else "Zulip"
      let narrow_url ← get_narrow_url env user_profile m0.message none none
      let context3 := { context2 with narrow_url := narrow_url }
      let senders0 := (missed_messages.map (fun mi => mi.message.sender)).dedup
      let branched : NotifContext × List UserBrief ←
        if m0.message.recipient.type == .huddle then
          let display_recipient := env.get_display_recipient m0.message.recipient
          let other_recipients := (display_recipient.filter
            (fun r => r.id ≠ user_profile.id)).map (fun r => r.full_name)
          .ok ({ context3 with
                  group_pm := true
                  huddle_display_name := some (huddle_display_name other_recipients) },
               senders0)
        else if m0.message.recipient.type == .personal then
          .ok ({ context3 with private_message := true }, senders0)
        else if context3.mention || context3.stream_email_notify then
          let senders1 := if context3.mention then
              ((missed_messages.filter (fun mi =>
                mi.trigger == some "mentioned" || mi.trigger == some "wildcard_mentioned")).map
                (fun mi => mi.message.sender)).dedup
            else senders0
          let stream := env.streamById m0.message.recipient.type_id
          let tr := env.get_topic_resolution_and_bare_name m0.message.topic
          .ok ({ context3 with
                  stream_name := some stream.name
                  topic_name := some tr.2
                  topic_resolved := some tr.1 }, senders1)
        else
          .error "AssertionError: Invalid messages!"
      let context4 := branched.1
      let senders := branched.2
      let context5 : NotifContext ←
        if !(message_content_allowed_in_missedmessage_emails user_profile) then
          .ok { context4 with
            reply_to_zulip := false
            messages := []
            sender_str := ""
            realm_str := user_profile.realm.name
            huddle_display_name := some ""
            show_message_content := false
            message_content_disabled_by_user :=
              some (!user_profile.message_content_in_email_notifications)
            message_content_disabled_by_realm :=
              some (!user_profile.realm.message_content_allowed_in_email_notifications) }
        else do
          let msgs ← build_message_list env user_profile
            (missed_messages.map (fun mi => mi.message)) (fun _ => none)
          .ok { context4 with
            messages := msgs
            sender_str := pyJoin ", " (senders.map (fun s => s.full_name))
            realm_str := user_profile.realm.name
            show_message_content := true }
      let from_name0 := env.translate user_profile.default_language "Zulip notifications"
      let fin := sendAsUserOverride settings senders from_name0 context5
      .ok { template := "zerver/emails/missed_message"
            to_user_ids := [user_profile.id]
            from_name := fin.1
            from_address := fin.2.1
            reply_to_name := reply_to_name
            reply_to_address := reply_to_address
            context := fin.2.2 }

/-! `handle_missedmessage_emails` (source lines 564-648). -/

/-- One event of the `missed_email_events` batch. -/
structure MMEvent where
  message_id : Nat
  trigger : Option String
  mentioned_user_group_id : Option Nat
deriving DecidableEq

/-- The per-message trigger metadata folded out of the events. -/
structure EventInfo where
  trigger : Option String
  mentioned_user_group_id : Option Nat
deriving DecidableEq

/-- Insert-or-overwrite on an association list, preserving first-insertion
order — CPython dict assignment. -/
def dictInsert {α β : Type} [DecidableEq α] (k : α) (v : β) :
    List (α × β) → List (α × β)
  | [] => [(k, v)]
  | (k2, v2) :: rest =>
    if k2 = k then (k2, v) :: rest else (k2, v2) :: dictInsert k v rest

/-- The `message_ids` dict comprehension (source lines 567-573): for a
repeated message id the last event wins. -/
def message_ids_of_events (events : List MMEvent) : List (Nat × EventInfo) :=
  events.foldl
    (fun acc ev => dictInsert ev.message_id ⟨ev.trigger, ev.mentioned_user_group_id⟩ acc) []

/-- The bucket key (source lines 605-611): `(recipient_id, sender_id)`
for direct messages, `(recipient_id, topic.lower())` otherwise.  The
Python value type is `Union[int, str]`, so the two shapes never collide. -/
inductive BucketDisc : Type where
  | senderId (id : Nat)
  | topic (t : String)
deriving DecidableEq

def bucketKeyOf (m : Message) : Nat × BucketDisc :=
  if m.recipient.type = .personal then (m.recipient_id, .senderId m.sender_id)
  else (m.recipient_id, .topic (pyLower m.topic))

/-- `defaultdict(list)` insertion, appending to the keyed bucket and
preserving first-occurrence bucket order. -/
def bucketInsert (k : Nat × BucketDisc) (m : Message) :
    List ((Nat × BucketDisc) × List Message) → List ((Nat × BucketDisc) × List Message)
  | [] => [(k, [m])]
  | (k2, l) :: rest =>
    if k2 = k then (k2, l ++ [m]) :: rest else (k2, l) :: bucketInsert k m rest

def messages_by_bucket (msgs : List Message) :
    List ((Nat × BucketDisc) × List Message) :=
  msgs.foldl (fun acc m => bucketInsert (bucketKeyOf m) m acc) []

/-- `message_count_by_bucket` (source lines 613-615), computed before the
context messages are attached. -/
def message_count_by_bucket (msgs : List Message) :
    List ((Nat × BucketDisc) × Nat) :=
  (messages_by_bucket msgs).map (fun kv => (kv.1, kv.2.length))

/-- Python `min(msg_list, key=lambda msg: msg.date_sent)` (first minimum
wins ties). -/
def minByDateSent : List Message → Option Message
  | [] => none
  | m :: rest =>
    some (rest.foldl (fun best m2 => if m2.date_sent < best.date_sent then m2 else best) m)

/-- The context-attachment loop body (source lines 617-622): for a stream
bucket, the accessible context messages of the earliest message are
appended. -/
def extendBucket (env : Externals) (user_profile : UserProfile)
    (msg_list : List Message) : List Message :=
  match minByDateSent msg_list with
  | none => msg_list
  | some msg =>
    if msg.is_stream_message then
      msg_list ++ env.bulk_access_messages user_profile (env.get_context_for_message msg)
    else msg_list

def extended_buckets (env : Externals) (user_profile : UserProfile)
    (msgs : List Message) : List ((Nat × BucketDisc) × List Message) :=
  (messages_by_bucket msgs).map (fun kv => (kv.1, extendBucket env user_profile kv.2))

/-- Python `max(msg_list, key=lambda msg: msg.id).id` on a non-empty
bucket (`0` on the empty list, which no bucket is). -/
def maxIdOf (l : List Message) : Nat := (l.map (fun m => m.id)).foldl max 0

/-- `bucket_tups` (source lines 625-628). -/
def bucket_tups (env : Externals) (user_profile : UserProfile)
    (msgs : List Message) : List ((Nat × BucketDisc) × Nat) :=
  (extended_buckets env user_profile msgs).map (fun kv => (kv.1, maxIdOf kv.2))

/-- `sorted(bucket_tups, key=lambda x: x[1])` (source line 630): CPython's
stable sort, embedded as the stable insertion sort. -/
def sorted_bucket_tups (env : Externals) (user_profile : UserProfile)
    (msgs : List Message) : List ((Nat × BucketDisc) × Nat) :=
  List.insertionSort (fun t1 t2 => t1.2 ≤ t2.2) (bucket_tups env user_profile msgs)

/-- `messages_by_bucket[bucket_tup]` on the already-populated dict. -/
def bucketLookup (k : Nat × BucketDisc)
    (buckets : List ((Nat × BucketDisc) × List Message)) : List Message :=
  (buckets.lookup k).getD []

/-- The value stored for one message by the `unique_messages` loop:
`dict(message=m, trigger=..., mentioned_user_group_id=...)` with the
trigger metadata looked up in `message_ids` (`None` fields when the id is
absent). -/
def uniqueEntry (msg_ids : List (Nat × EventInfo)) (m : Message) : MsgInfo :=
  { message := m
    trigger := match msg_ids.lookup m.id with
      | some info => info.trigger
      | none => none
    mentioned_user_group_id := match msg_ids.lookup m.id with
      | some info => info.mentioned_user_group_id
      | none => none }

/-- The `unique_messages` dict of the emission loop (source lines
634-643): keyed by message id, first-insertion order, last write wins. -/
def unique_messages (msg_ids : List (Nat × EventInfo)) (msg_list : List Message) :
    List MsgInfo :=
  (msg_list.foldl (fun acc m => dictInsert m.id (uniqueEntry msg_ids m) acc) []).map
    (fun kv => kv.2)

/-- The computable part of the unread-message query (source lines
592-597): `fetched` stands for the store's answer for the user's unread
messages; the `id__in=message_ids` condition and the
`.exclude(content="(deleted)")` filter are applied here. -/
def filtered_messages (events : List MMEvent) (fetched : List Message) :
    List Message :=
  let msg_ids := message_ids_of_events events
  fetched.filter (fun m => (msg_ids.lookup m.id).isSome && m.content != "(deleted)")

/-- The sequence of `do_send_missedmessage_events_reply_in_zulip` calls
`handle_missedmessage_emails` makes — the argument pair of each emission,
in emission order. -/
def handle_emit_calls (env : Externals) (user_profile_id : Nat)
    (events : List MMEvent) (fetched : List Message) :
    List (List MsgInfo × Nat) :=
  let msg_ids := message_ids_of_events events
  let user_profile := env.get_user_profile_by_id user_profile_id
  if user_profile.is_bot then []
  else if !user_profile.enable_offline_email_notifications then []
  else
    let messages := filtered_messages events fetched
    if messages.isEmpty then []
    else
      (sorted_bucket_tups env user_profile messages).map (fun tup =>
        (unique_messages msg_ids
          (bucketLookup tup.1 (extended_buckets env user_profile messages)),
         ((message_count_by_bucket messages).lookup tup.1).getD 0))

/-- `handle_missedmessage_emails(user_profile_id, missed_email_events)`:
the emissions' outcomes, one per bucket. -/
def handle_missedmessage_emails (env : Externals) (settings : Settings)
    (user_profile_id : Nat) (events : List MMEvent) (fetched : List Message) :
    List (Except String EmailPayload) :=
  (handle_emit_calls env user_profile_id events fetched).map
    (fun call => do_send_missedmessage_events_reply_in_zulip env settings
      (env.get_user_profile_by_id user_profile_id) call.1 call.2)

/-! Lemmas about the bucketing fold. -/

theorem bucketInsert_mem_key (k : Nat × BucketDisc) (m : Message)
    (acc : List ((Nat × BucketDisc) × List Message)) (x : Nat × BucketDisc) :
    x ∈ (bucketInsert k m acc).map (fun kv => kv.1)
      ↔ x = k ∨ x ∈ acc.map (fun kv => kv.1) := by
  induction acc with
  | nil => simp [bucketInsert]
  | cons kv rest ih =>
    rcases kv with ⟨k2, l⟩
    simp only [bucketInsert]
    by_cases hk : k2 = k
    · subst hk
      rw [if_pos rfl]
      simp only [List.map_cons, List.mem_cons]
      tauto
    · rw [if_neg hk]
      simp only [List.map_cons, List.mem_cons, ih]
      tauto

theorem bucketInsert_forall (P : (Nat × BucketDisc) × List Message → Prop)
    (k : Nat × BucketDisc) (m : Message)
    (acc : List ((Nat × BucketDisc) × List Message))
    (hacc : ∀ kv ∈ acc, P kv)
    (hnew : P (k, [m]))
    (hext : ∀ l, P (k, l) → P (k, l ++ [m])) :
    ∀ kv ∈ bucketInsert k m acc, P kv := by
  induction acc with
  | nil =>
    intro kv hkv
    simp only [bucketInsert, List.mem_singleton] at hkv
    exact hkv ▸ hnew
  | cons kv0 rest ih =>
    rcases kv0 with ⟨k2, l⟩
    intro kv hkv
    simp only [bucketInsert] at hkv
    by_cases hk : k2 = k
    · subst hk
      rw [if_pos rfl] at hkv
      rcases List.mem_cons.mp hkv with h2 | h2
      · exact h2 ▸ hext l (hacc (k2, l) (List.mem_cons_self _ _))
      · exact hacc kv (List.mem_cons_of_mem _ h2)
    · rw [if_neg hk] at hkv
      rcases List.mem_cons.mp hkv with h2 | h2
      · exact h2 ▸ hacc (k2, l) (List.mem_cons_self _ _)
      · exact ih (fun kv2 hkv2 => hacc kv2 (List.mem_cons_of_mem _ hkv2)) kv h2

theorem bucketInsert_flatten_perm (k : Nat × BucketDisc) (m : Message)
    (acc : List ((Nat × BucketDisc) × List Message)) :
    ((bucketInsert k m acc).map (fun kv => kv.2)).flatten.Perm
      (m :: (acc.map (fun kv => kv.2)).flatten) := by
  induction acc with
  | nil => simp [bucketInsert]
  | cons kv0 rest ih =>
    rcases kv0 with ⟨k2, l⟩
    simp only [bucketInsert]
    by_cases hk : k2 = k
    · subst hk
      rw [if_pos rfl]
      simp only [List.map_cons, List.flatten_cons]
      have h1 : (l ++ [m]) ++ (rest.map (fun kv => kv.2)).flatten
          = l ++ (m :: (rest.map (fun kv => kv.2)).flatten) := by simp
      rw [h1]
      exact List.perm_middle
    · rw [if_neg hk]
      simp only [List.map_cons, List.flatten_cons]
      exact (List.Perm.append_left l ih).trans List.perm_middle

theorem bucketInsert_keys_nodup (k : Nat × BucketDisc) (m : Message)
    (acc : List ((Nat × BucketDisc) × List Message))
    (h : (acc.map (fun kv => kv.1)).Nodup) :
    ((bucketInsert k m acc).map (fun kv => kv.1)).Nodup := by
  induction acc with
  | nil => simp [bucketInsert]
  | cons kv0 rest ih =>
    rcases kv0 with ⟨k2, l⟩
    simp only [List.map_cons, List.nodup_cons] at h
    simp only [bucketInsert]
    by_cases hk : k2 = k
    · subst hk
      rw [if_pos rfl]
      simp only [List.map_cons, List.nodup_cons]
      exact h
    · rw [if_neg hk]
      simp only [List.map_cons, List.nodup_cons]
      refine ⟨?_, ih h.2⟩
      intro hmem
      rcases (bucketInsert_mem_key k m rest k2).mp hmem with h2 | h2
      · exact hk h2
      · exact h.1 h2

theorem messages_by_bucket_go_spec (msgs : List Message) :
    ∀ acc : List ((Nat × BucketDisc) × List Message),
      (∀ kv ∈ acc, (∀ m ∈ kv.2, bucketKeyOf m = kv.1) ∧ kv.2 ≠ []) →
      (acc.map (fun kv => kv.1)).Nodup →
      (∀ kv ∈ msgs.foldl (fun a m => bucketInsert (bucketKeyOf m) m a) acc,
        (∀ m ∈ kv.2, bucketKeyOf m = kv.1) ∧ kv.2 ≠ [])
      ∧ ((msgs.foldl (fun a m => bucketInsert (bucketKeyOf m) m a) acc).map
          (fun kv => kv.2)).flatten.Perm
            ((acc.map (fun kv => kv.2)).flatten ++ msgs)
      ∧ ((msgs.foldl (fun a m => bucketInsert (bucketKeyOf m) m a) acc).map
          (fun kv => kv.1)).Nodup := by
  induction msgs with
  | nil =>
    intro acc hinv hnd
    exact ⟨hinv, by simp, hnd⟩
  | cons m rest ih =>
    intro acc hinv hnd
    simp only [List.foldl_cons]
    have hinv2 : ∀ kv ∈ bucketInsert (bucketKeyOf m) m acc,
        (∀ m2 ∈ kv.2, bucketKeyOf m2 = kv.1) ∧ kv.2 ≠ [] := by
      refine bucketInsert_forall _ (bucketKeyOf m) m acc hinv ⟨?_, by simp⟩ ?_
      · intro m2 hm2
        have : m2 = m := by simpa using hm2
        simp [this]
      · intro l hl
        refine ⟨?_, by simp⟩
        intro m2 hm2
        rcases List.mem_append.mp hm2 with h2 | h2
        · exact hl.1 m2 h2
        · have : m2 = m := by simpa using h2
          simp [this]
    have hnd2 := bucketInsert_keys_nodup (bucketKeyOf m) m acc hnd
    rcases ih (bucketInsert (bucketKeyOf m) m acc) hinv2 hnd2 with ⟨h1, h2, h3⟩
    refine ⟨h1, ?_, h3⟩
    refine h2.trans ?_
    refine (List.Perm.append_right rest
      (bucketInsert_flatten_perm (bucketKeyOf m) m acc)).trans ?_
    have h4 : (m :: (acc.map (fun kv => kv.2)).flatten) ++ rest
        = [] ++ m :: ((acc.map (fun kv => kv.2)).flatten ++ rest) := by simp
    rw [h4]
    have h5 : (acc.map (fun kv => kv.2)).flatten ++ m :: rest
        = ([] ++ (acc.map (fun kv => kv.2)).flatten) ++ m :: rest := by simp
    rw [h5]
    exact (List.perm_middle).symm.trans (by simp)

theorem messages_by_bucket_spec (msgs : List Message) :
    (∀ kv ∈ messages_by_bucket msgs, (∀ m ∈ kv.2, bucketKeyOf m = kv.1) ∧ kv.2 ≠ [])
    ∧ ((messages_by_bucket msgs).map (fun kv => kv.2)).flatten.Perm msgs
    ∧ ((messages_by_bucket msgs).map (fun kv => kv.1)).Nodup := by
  have h := messages_by_bucket_go_spec msgs [] (by simp) (by simp)
  simpa [messages_by_bucket] using h

/-- A stream recipient and five unread stream messages, three in topic
"alpha" and two in topic "beta", for the concrete bucketing example. -/
def recS : Recipient := ⟨7, .stream, 3⟩

def msgs5 : List Message :=
  [⟨21, ⟨2, "Alice", "a@z"⟩, recS, "alpha", 1, "m1", "<p>m1</p>"⟩,
   ⟨22, ⟨2, "Alice", "a@z"⟩, recS, "beta", 2, "m2", "<p>m2</p>"⟩,
   ⟨23, ⟨3, "Bob", "b@z"⟩, recS, "Alpha", 3, "m3", "<p>m3</p>"⟩,
   ⟨24, ⟨3, "Bob", "b@z"⟩, recS, "beta", 4, "m4", "<p>m4</p>"⟩,
   ⟨25, ⟨2, "Alice", "a@z"⟩, recS, "alpha", 5, "m5", "<p>m5</p>"⟩]

/-- C3: `handle_missedmessage_emails` partitions the fetched unread
messages into buckets so that each message belongs to exactly one bucket
(the bucket lists flatten to a permutation of the input and bucket keys
are distinct), keyed by (recipient id, sender id) for direct messages and
by (recipient id, lower-cased topic) otherwise; in particular 5 unread
stream messages, 3 in topic "alpha" (one spelled "Alpha") and 2 in topic
"beta" of one stream, yield exactly 2 buckets with counts 3 and 2. -/
theorem messages_by_bucket_partition :
    (∀ msgs : List Message,
      (∀ kv ∈ messages_by_bucket msgs, ∀ m ∈ kv.2, bucketKeyOf m = kv.1)
      ∧ ((messages_by_bucket msgs).map (fun kv => kv.2)).flatten.Perm msgs
      ∧ ((messages_by_bucket msgs).map (fun kv => kv.1)).Nodup)
    ∧ message_count_by_bucket msgs5
        = [((7, .topic "alpha"), 3), ((7, .topic "beta"), 2)] := by
  constructor
  · intro msgs
    rcases messages_by_bucket_spec msgs with ⟨h1, h2, h3⟩
    exact ⟨fun kv hkv => (h1 kv hkv).1, h2, h3⟩
  · rfl

/-! Lemmas about dictionaries, maxima and the emission loop. -/

theorem dictInsert_mem_key {α β : Type} [DecidableEq α] (k : α) (v : β)
    (acc : List (α × β)) (x : α) :
    x ∈ (dictInsert k v acc).map (fun kv => kv.1)
      ↔ x = k ∨ x ∈ acc.map (fun kv => kv.1) := by
  induction acc with
  | nil => simp [dictInsert]
  | cons kv0 rest ih =>
    rcases kv0 with ⟨k2, v2⟩
    simp only [dictInsert]
    by_cases hk : k2 = k
    · subst hk
      rw [if_pos rfl]
      simp only [List.map_cons, List.mem_cons]
      tauto
    · rw [if_neg hk]
      simp only [List.map_cons, List.mem_cons, ih]
      tauto

theorem dictInsert_forall {α β : Type} [DecidableEq α] (P : α × β → Prop)
    (k : α) (v : β) (acc : List (α × β)) (hacc : ∀ kv ∈ acc, P kv)
    (hnew : P (k, v)) : ∀ kv ∈ dictInsert k v acc, P kv := by
  induction acc with
  | nil =>
    intro kv hkv
    simp only [dictInsert, List.mem_singleton] at hkv
    exact hkv ▸ hnew
  | cons kv0 rest ih =>
    rcases kv0 with ⟨k2, v2⟩
    intro kv hkv
    simp only [dictInsert] at hkv
    by_cases hk : k2 = k
    · subst hk
      rw [if_pos rfl] at hkv
      rcases List.mem_cons.mp hkv with h2 | h2
      · exact h2 ▸ hnew
      · exact hacc kv (List.mem_cons_of_mem _ h2)
    · rw [if_neg hk] at hkv
      rcases List.mem_cons.mp hkv with h2 | h2
      · exact h2 ▸ hacc (k2, v2) (List.mem_cons_self _ _)
      · exact ih (fun kv2 hkv2 => hacc kv2 (List.mem_cons_of_mem _ hkv2)) kv h2

theorem dictInsert_ne_nil {α β : Type} [DecidableEq α] (k : α) (v : β)
    (acc : List (α × β)) : dictInsert k v acc ≠ [] := by
  rcases acc with - | ⟨⟨k2, v2⟩, rest⟩
  · simp [dictInsert]
  · simp only [dictInsert]
    split <;> simp

theorem lookup_of_mem_nodup {α β : Type} [BEq α] [LawfulBEq α] (l : List (α × β))
    (k : α) (v : β) (hnd : (l.map (fun kv => kv.1)).Nodup) (hmem : (k, v) ∈ l) :
    l.lookup k = some v := by
  induction l with
  | nil => simp at hmem
  | cons kv0 rest ih =>
    rcases kv0 with ⟨k2, v2⟩
    simp only [List.map_cons, List.nodup_cons] at hnd
    rcases List.mem_cons.mp hmem with h2 | h2
    · injection h2 with hk hv
      simp [List.lookup, ← hk, hv]
    · have hkne : k ≠ k2 := by
        intro he
        subst he
        exact hnd.1 (List.mem_map.mpr ⟨(k, v), h2, rfl⟩)
      simp only [List.lookup, beq_eq_false_iff_ne.mpr hkne]
      exact ih hnd.2 h2

theorem lookup_map_value {α β γ : Type} [BEq α] [LawfulBEq α] (l : List (α × β))
    (f : β → γ) (k : α) :
    ((l.map (fun kv => (kv.1, f kv.2))).lookup k) = (l.lookup k).map f := by
  induction l with
  | nil => simp [List.lookup]
  | cons kv0 rest ih =>
    rcases kv0 with ⟨k2, v2⟩
    by_cases hk : k = k2
    · subst hk
      simp [List.lookup]
    · simp only [List.map_cons, List.lookup, beq_eq_false_iff_ne.mpr hk]
      exact ih

theorem foldl_max_init (a : Nat) (l : List Nat) :
    l.foldl max a = max a (l.foldl max 0) := by
  induction l generalizing a with
  | nil => simp
  | cons x rest ih =>
    simp only [List.foldl_cons]
    rw [ih (max a x), ih (max 0 x)]
    omega

theorem le_foldl_max (l : List Nat) : ∀ x ∈ l, x ≤ l.foldl max 0 := by
  induction l with
  | nil => simp
  | cons y rest ih =>
    intro x hx
    simp only [List.foldl_cons]
    rw [foldl_max_init]
    rcases List.mem_cons.mp hx with h2 | h2
    · subst h2
      omega
    · have := ih x h2
      omega

theorem foldl_max_zero_or_mem (l : List Nat) :
    l.foldl max 0 = 0 ∨ l.foldl max 0 ∈ l := by
  induction l with
  | nil => simp
  | cons y rest ih =>
    simp only [List.foldl_cons]
    rw [foldl_max_init]
    rcases ih with h | h
    · rw [h]
      rcases Nat.le_total (max 0 y) 0 with h2 | h2
      · left; omega
      · right
        simp only [List.mem_cons]
        left
        omega
    · rcases Nat.le_total (max 0 y) (rest.foldl max 0) with h2 | h2
      · right
        have : max (max 0 y) (rest.foldl max 0) = rest.foldl max 0 := by omega
        rw [this]
        exact List.mem_cons_of_mem _ h
      · rcases Nat.eq_zero_or_pos (max (max 0 y) (rest.foldl max 0)) with h3 | h3
        · left; omega
        · right
          have : max (max 0 y) (rest.foldl max 0) = y := by omega
          rw [this]
          exact List.mem_cons_self _ _

theorem foldl_max_eq_of_mem_iff (l1 l2 : List Nat)
    (h : ∀ x, x ∈ l1 ↔ x ∈ l2) : l1.foldl max 0 = l2.foldl max 0 := by
  have hle : ∀ (a b : List Nat), (∀ x, x ∈ a ↔ x ∈ b) →
      a.foldl max 0 ≤ b.foldl max 0 := by
    intro a b hab
    rcases foldl_max_zero_or_mem a with h2 | h2
    · omega
    · exact le_foldl_max b _ ((hab _).mp h2)
  exact Nat.le_antisymm (hle l1 l2 h) (hle l2 l1 (fun x => (h x).symm))

theorem unique_go_forall (msg_ids : List (Nat × EventInfo)) (Q : Message → Prop) :
    ∀ (l : List Message) (acc : List (Nat × MsgInfo)),
      (∀ kv ∈ acc, Q kv.2.message) → (∀ m ∈ l, Q m) →
      ∀ kv ∈ l.foldl (fun a m => dictInsert m.id (uniqueEntry msg_ids m) a) acc,
        Q kv.2.message := by
  intro l
  induction l with
  | nil => intro acc hacc _ kv hkv; exact hacc kv hkv
  | cons m rest ih =>
    intro acc hacc hl
    simp only [List.foldl_cons]
    refine ih (dictInsert m.id (uniqueEntry msg_ids m) acc) ?_
      (fun m2 hm2 => hl m2 (List.mem_cons_of_mem _ hm2))
    exact dictInsert_forall (fun kv => Q kv.2.message) m.id (uniqueEntry msg_ids m)
      acc hacc (hl m (List.mem_cons_self _ _))

theorem unique_messages_mem (msg_ids : List (Nat × EventInfo)) (l : List Message) :
    ∀ mi ∈ unique_messages msg_ids l, mi.message ∈ l := by
  intro mi hmi
  simp only [unique_messages, List.mem_map] at hmi
  rcases hmi with ⟨kv, hkv, hmi⟩
  have := unique_go_forall msg_ids (fun m => m ∈ l) l [] (by simp)
    (fun m hm => hm) kv hkv
  exact hmi ▸ this

theorem unique_go_id_inv (msg_ids : List (Nat × EventInfo)) :
    ∀ (l : List Message) (acc : List (Nat × MsgInfo)),
      (∀ kv ∈ acc, kv.2.message.id = kv.1) →
      ∀ kv ∈ l.foldl (fun a m => dictInsert m.id (uniqueEntry msg_ids m) a) acc,
        kv.2.message.id = kv.1 := by
  intro l
  induction l with
  | nil => intro acc hacc kv hkv; exact hacc kv hkv
  | cons m rest ih =>
    intro acc hacc
    simp only [List.foldl_cons]
    refine ih (dictInsert m.id (uniqueEntry msg_ids m) acc) ?_
    intro kv hkv
    refine dictInsert_forall (fun kv2 => kv2.2.message.id = kv2.1) m.id
      (uniqueEntry msg_ids m) acc hacc rfl kv hkv

theorem unique_go_keys (msg_ids : List (Nat × EventInfo)) :
    ∀ (l : List Message) (acc : List (Nat × MsgInfo)) (x : Nat),
      (x ∈ (l.foldl (fun a m => dictInsert m.id (uniqueEntry msg_ids m) a) acc).map
          (fun kv => kv.1)
        ↔ x ∈ acc.map (fun kv => kv.1) ∨ x ∈ l.map (fun m => m.id)) := by
  intro l
  induction l with
  | nil => intro acc x; simp
  | cons m rest ih =>
    intro acc x
    simp only [List.foldl_cons]
    rw [ih (dictInsert m.id (uniqueEntry msg_ids m) acc) x]
    rw [dictInsert_mem_key m.id (uniqueEntry msg_ids m) acc x]
    simp only [List.map_cons, List.mem_cons]
    tauto

theorem unique_go_ne_nil (msg_ids : List (Nat × EventInfo)) :
    ∀ (l : List Message) (acc : List (Nat × MsgInfo)),
      acc ≠ [] ∨ l ≠ [] →
      l.foldl (fun a m => dictInsert m.id (uniqueEntry msg_ids m) a) acc ≠ [] := by
  intro l
  induction l with
  | nil =>
    intro acc h
    rcases h with h | h
    · simpa using h
    · simp at h
  | cons m rest ih =>
    intro acc _
    simp only [List.foldl_cons]
    exact ih (dictInsert m.id (uniqueEntry msg_ids m) acc)
      (Or.inl (dictInsert_ne_nil m.id (uniqueEntry msg_ids m) acc))

theorem unique_messages_ids (msg_ids : List (Nat × EventInfo)) (l : List Message) :
    ∀ x, x ∈ (unique_messages msg_ids l).map (fun mi => mi.message.id)
      ↔ x ∈ l.map (fun m => m.id) := by
  intro x
  simp only [unique_messages, List.map_map]
  have hinv := unique_go_id_inv msg_ids l [] (by simp)
  have hcongr : (l.foldl (fun a m => dictInsert m.id (uniqueEntry msg_ids m) a) []).map
      ((fun mi => mi.message.id) ∘ (fun kv => kv.2))
      = (l.foldl (fun a m => dictInsert m.id (uniqueEntry msg_ids m) a) []).map
        (fun kv => kv.1) := by
    refine List.map_congr_left ?_
    intro kv hkv
    exact hinv kv hkv
  rw [hcongr]
  have := unique_go_keys msg_ids l [] x
  simpa using this

theorem maxIdOf_unique (msg_ids : List (Nat × EventInfo)) (l : List Message) :
    maxIdOf ((unique_messages msg_ids l).map (fun mi => mi.message)) = maxIdOf l := by
  simp only [maxIdOf, List.map_map]
  refine foldl_max_eq_of_mem_iff _ _ ?_
  intro x
  have := unique_messages_ids msg_ids l x
  simpa using this

theorem unique_messages_ne_nil (msg_ids : List (Nat × EventInfo)) (l : List Message)
    (h : l ≠ []) : unique_messages msg_ids l ≠ [] := by
  simp only [unique_messages]
  intro hmap
  exact unique_go_ne_nil msg_ids l [] (Or.inr h) (List.map_eq_nil_iff.mp hmap)

theorem extended_buckets_keys (env : Externals) (user_profile : UserProfile)
    (msgs : List Message) :
    (extended_buckets env user_profile msgs).map (fun kv => kv.1)
      = (messages_by_bucket msgs).map (fun kv => kv.1) := by
  simp [extended_buckets, List.map_map, Function.comp]

theorem bucketLookup_extended (env : Externals) (user_profile : UserProfile)
    (msgs : List Message) (kv : (Nat × BucketDisc) × List Message)
    (hmem : kv ∈ extended_buckets env user_profile msgs) :
    bucketLookup kv.1 (extended_buckets env user_profile msgs) = kv.2 := by
  have hnd : ((extended_buckets env user_profile msgs).map (fun kv => kv.1)).Nodup := by
    rw [extended_buckets_keys]
    exact (messages_by_bucket_spec msgs).2.2
  rcases kv with ⟨k, l⟩
  simp only [bucketLookup]
  rw [lookup_of_mem_nodup _ k l hnd hmem]
  rfl

theorem sorted_bucket_tups_perm (env : Externals) (user_profile : UserProfile)
    (msgs : List Message) :
    (sorted_bucket_tups env user_profile msgs).Perm (bucket_tups env user_profile msgs) :=
  List.perm_insertionSort _ _

theorem sorted_bucket_tups_sorted (env : Externals) (user_profile : UserProfile)
    (msgs : List Message) :
    List.Sorted (fun t1 t2 => t1.2 ≤ t2.2) (sorted_bucket_tups env user_profile msgs) := by
  haveI hto : IsTotal ((Nat × BucketDisc) × Nat) (fun t1 t2 => t1.2 ≤ t2.2) :=
    ⟨fun a b => Nat.le_total a.2 b.2⟩
  haveI htr : IsTrans ((Nat × BucketDisc) × Nat) (fun t1 t2 => t1.2 ≤ t2.2) :=
    ⟨fun _ _ _ hab hbc => Nat.le_trans hab hbc⟩
  exact List.sorted_insertionSort _ _

/-- C2: `handle_missedmessage_emails` emits exactly one payload per
bucket, and the buckets are emitted in ascending order of the maximum
message identifier among each bucket's messages (stalest conversation
first).  The concrete [10, 30, 50] instance is checked in the witness. -/
theorem handle_missedmessage_emails_order (env : Externals) (user_profile_id : Nat)
    (events : List MMEvent) (fetched : List Message)
    (hbot : (env.get_user_profile_by_id user_profile_id).is_bot = false)
    (hen : (env.get_user_profile_by_id user_profile_id).enable_offline_email_notifications
      = true) :
    (handle_emit_calls env user_profile_id events fetched).length
      = (messages_by_bucket (filtered_messages events fetched)).length
    ∧ List.Sorted (fun a b => a ≤ b)
        ((handle_emit_calls env user_profile_id events fetched).map
          (fun call => maxIdOf (call.1.map (fun mi => mi.message)))) := by
  simp only [handle_emit_calls, hbot, hen, Bool.not_true, Bool.false_eq_true, if_false]
  set u := env.get_user_profile_by_id user_profile_id with hu
  set msgs := filtered_messages events fetched with hmsgs
  by_cases hempty : msgs.isEmpty
  · have : msgs = [] := by simpa using hempty
    rw [hempty]
    simp [this, messages_by_bucket]
  · simp only [hempty, Bool.false_eq_true, if_false]
    set msg_ids := message_ids_of_events events with hids
    constructor
    · rw [List.length_map]
      rw [(sorted_bucket_tups_perm env u msgs).length_eq]
      simp [bucket_tups, extended_buckets]
    · rw [List.map_map]
      have hcongr : (sorted_bucket_tups env u msgs).map
          ((fun call => maxIdOf (call.1.map (fun mi => mi.message))) ∘
            (fun tup => (unique_messages msg_ids
              (bucketLookup tup.1 (extended_buckets env u msgs)),
             ((message_count_by_bucket msgs).lookup tup.1).getD 0)))
          = (sorted_bucket_tups env u msgs).map (fun tup => tup.2) := by
        refine List.map_congr_left ?_
        intro tup htup
        have htup2 : tup ∈ bucket_tups env u msgs :=
          (sorted_bucket_tups_perm env u msgs).subset htup
        simp only [bucket_tups, List.mem_map] at htup2
        rcases htup2 with ⟨kv, hkv, htup2⟩
        subst htup2
        simp only [Function.comp]
        rw [bucketLookup_extended env u msgs kv hkv]
        exact maxIdOf_unique msg_ids kv.2
      rw [hcongr]
      have hsorted := sorted_bucket_tups_sorted env u msgs
      refine List.Pairwise.map (fun tup : (Nat × BucketDisc) × Nat => tup.2) ?_ hsorted
      intro a b hab
      exact hab

/-- Three unread stream events/messages whose three buckets have maximum
message ids 50, 10 and 30. -/
def eventsC : List MMEvent := [⟨50, none, none⟩, ⟨10, none, none⟩, ⟨30, none, none⟩]

def fetchedC : List Message :=
  [⟨50, ⟨2, "Alice", "a@z"⟩, recS, "t1", 9, "x", "<p>x</p>"⟩,
   ⟨10, ⟨2, "Alice", "a@z"⟩, recS, "t2", 3, "y", "<p>y</p>"⟩,
   ⟨30, ⟨3, "Bob", "b@z"⟩, recS, "t3", 6, "z", "<p>z</p>"⟩]

/-- Witness for C2: three buckets with maximum ids 50, 10, 30 are emitted
in the order [10, 30, 50]. -/
theorem handle_missedmessage_emails_order_witness :
    ((handle_emit_calls trivEnv 1 eventsC fetchedC).length
        = (messages_by_bucket (filtered_messages eventsC fetchedC)).length
      ∧ List.Sorted (fun a b => a ≤ b)
          ((handle_emit_calls trivEnv 1 eventsC fetchedC).map
            (fun call => maxIdOf (call.1.map (fun mi => mi.message)))))
    ∧ (handle_emit_calls trivEnv 1 eventsC fetchedC).map
        (fun call => maxIdOf (call.1.map (fun mi => mi.message))) = [10, 30, 50] :=
  ⟨handle_missedmessage_emails_order trivEnv 1 eventsC fetchedC rfl rfl, by decide⟩

/-- C4: the message count reported per bucket (the second argument of
each emission) equals the number of originally-unread messages in that
bucket — the length of the bucket's pre-context message list — and never
includes the context messages later attached to stream buckets: the count
map is computed before the extension. -/
theorem handle_missedmessage_emails_counts (env : Externals) (user_profile_id : Nat)
    (events : List MMEvent) (fetched : List Message)
    (hbot : (env.get_user_profile_by_id user_profile_id).is_bot = false)
    (hen : (env.get_user_profile_by_id user_profile_id).enable_offline_email_notifications
      = true) :
    (handle_emit_calls env user_profile_id events fetched).map (fun call => call.2)
      = (sorted_bucket_tups env (env.get_user_profile_by_id user_profile_id)
          (filtered_messages events fetched)).map
          (fun tup => (bucketLookup tup.1
            (messages_by_bucket (filtered_messages events fetched))).length) := by
  simp only [handle_emit_calls, hbot, hen, Bool.not_true, Bool.false_eq_true, if_false]
  set u := env.get_user_profile_by_id user_profile_id with hu
  set msgs := filtered_messages events fetched with hmsgs
  by_cases hempty : msgs.isEmpty
  · have hnil : msgs = [] := by simpa using hempty
    rw [hempty]
    simp [hnil, sorted_bucket_tups, bucket_tups, extended_buckets, messages_by_bucket]
  · simp only [hempty, Bool.false_eq_true, if_false]
    rw [List.map_map]
    refine List.map_congr_left ?_
    intro tup htup
    have htup2 : tup ∈ bucket_tups env u msgs :=
      (sorted_bucket_tups_perm env u msgs).subset htup
    simp only [bucket_tups, List.mem_map] at htup2
    rcases htup2 with ⟨kv, hkv, htup2⟩
    subst htup2
    simp only [extended_buckets, List.mem_map] at hkv
    rcases hkv with ⟨kv0, hkv0, hkv⟩
    subst hkv
    simp only [Function.comp]
    have hnd : ((messages_by_bucket msgs).map (fun kv => kv.1)).Nodup :=
      (messages_by_bucket_spec msgs).2.2
    have hlk : (messages_by_bucket msgs).lookup kv0.1 = some kv0.2 :=
      lookup_of_mem_nodup _ kv0.1 kv0.2 hnd (by rcases kv0 with ⟨k0, l0⟩; exact hkv0)
    rw [show message_count_by_bucket msgs
        = (messages_by_bucket msgs).map (fun kv => (kv.1, kv.2.length)) from rfl]
    rw [lookup_map_value (messages_by_bucket msgs) List.length kv0.1]
    rw [hlk]
    simp [bucketLookup, hlk]

/-- Witness for C4 at the concrete three-bucket input. -/
theorem handle_missedmessage_emails_counts_witness :
    (handle_emit_calls trivEnv 1 eventsC fetchedC).map (fun call => call.2)
      = (sorted_bucket_tups trivEnv (trivEnv.get_user_profile_by_id 1)
          (filtered_messages eventsC fetchedC)).map
          (fun tup => (bucketLookup tup.1
            (messages_by_bucket (filtered_messages eventsC fetchedC))).length) :=
  handle_missedmessage_emails_counts trivEnv 1 eventsC fetchedC rfl rfl

theorem foldl_minByDate_mem :
    ∀ (rest : List Message) (best : Message),
      rest.foldl (fun best m2 => if m2.date_sent < best.date_sent then m2 else best) best
        ∈ best :: rest := by
  intro rest
  induction rest with
  | nil => intro best; simp
  | cons x rs ih =>
    intro best
    simp only [List.foldl_cons]
    by_cases hx : x.date_sent < best.date_sent
    · rw [if_pos hx]
      rcases List.mem_cons.mp (ih x) with h2 | h2
      · rw [h2]
        simp
      · exact List.mem_cons_of_mem _ (List.mem_cons_of_mem _ h2)
    · rw [if_neg hx]
      rcases List.mem_cons.mp (ih best) with h2 | h2
      · rw [h2]
        simp
      · exact List.mem_cons_of_mem _ (List.mem_cons_of_mem _ h2)

theorem minByDateSent_mem (l : List Message) (m : Message)
    (h : minByDateSent l = some m) : m ∈ l := by
  rcases l with - | ⟨m0, rest⟩
  · simp [minByDateSent] at h
  · simp only [minByDateSent, Option.some.injEq] at h
    rw [← h]
    exact foldl_minByDate_mem rest m0

theorem minByDateSent_isSome (l : List Message) (h : l ≠ []) :
    ∃ m, minByDateSent l = some m := by
  rcases l with - | ⟨m0, rest⟩
  · exact absurd rfl h
  · exact ⟨_, rfl⟩

theorem dedup_eq_singleton_of_all_eq {α : Type} [DecidableEq α] :
    ∀ (l : List α) (a : α), l ≠ [] → (∀ x ∈ l, x = a) → l.dedup = [a] := by
  intro l
  induction l with
  | nil => intro a h _; exact absurd rfl h
  | cons x rest ih =>
    intro a _ hall
    have hx : x = a := hall x (List.mem_cons_self _ _)
    by_cases hr : rest = []
    · subst hr
      subst hx
      simp
    · have ha : a ∈ rest := by
        rcases rest with - | ⟨r0, rs⟩
        · exact absurd rfl hr
        · have := hall r0 (List.mem_cons_of_mem _ (List.mem_cons_self _ _))
          rw [← this]
          simp
      have hmem : x ∈ rest := hx ▸ ha
      rw [List.dedup_cons_of_mem hmem]
      exact ih a hr (fun y hy => hall y (List.mem_cons_of_mem _ hy))

/-- The common `(recipient_id, lower-cased topic)` pair of a bucket,
derived from its key (personal messages carry an empty topic). -/
def pairKey : Nat × BucketDisc → Nat × String
  | (rid, .senderId _) => (rid, "")
  | (rid, .topic t) => (rid, t)

theorem extended_bucket_pair (env : Externals) (u : UserProfile) (msgs : List Message)
    (hctx : ∀ m c, c ∈ env.get_context_for_message m →
      c.recipient_id = m.recipient_id ∧ pyLower c.topic = pyLower m.topic)
    (hacc : ∀ (u2 : UserProfile) (l : List Message),
      ∀ c ∈ env.bulk_access_messages u2 l, c ∈ l)
    (hpm : ∀ m ∈ msgs, m.recipient.type = .personal → m.topic = "") :
    ∀ kv ∈ extended_buckets env u msgs,
      kv.2 ≠ [] ∧ ∀ m ∈ kv.2, pairOf m = pairKey kv.1 := by
  intro kv hkv
  simp only [extended_buckets, List.mem_map] at hkv
  rcases hkv with ⟨kv0, hkv0, hkv⟩
  rcases messages_by_bucket_spec msgs with ⟨hb1, hb2, hb3⟩
  have hkey := (hb1 kv0 hkv0).1
  have hne0 := (hb1 kv0 hkv0).2
  have hmem_msgs : ∀ m ∈ kv0.2, m ∈ msgs := by
    intro m hm
    refine hb2.subset ?_
    exact List.mem_flatten.mpr ⟨kv0.2, List.mem_map.mpr ⟨kv0, hkv0, rfl⟩, hm⟩
  have hporig : ∀ m ∈ kv0.2, pairOf m = pairKey kv0.1 := by
    intro m hm
    have hk := hkey m hm
    by_cases hpers : m.recipient.type = .personal
    · rw [bucketKeyOf, if_pos hpers] at hk
      rw [← hk]
      simp only [pairKey, pairOf]
      rw [hpm m (hmem_msgs m hm) hpers]
      rfl
    · rw [bucketKeyOf, if_neg hpers] at hk
      rw [← hk]
      rfl
  subst hkv
  rcases hmin : minByDateSent kv0.2 with - | mn
  · have hext : extendBucket env u kv0.2 = kv0.2 := by
      simp [extendBucket, hmin]
    rw [hext]
    exact ⟨hne0, hporig⟩
  · have hmn_mem := minByDateSent_mem kv0.2 mn hmin
    by_cases hst : mn.is_stream_message = true
    · have hext : extendBucket env u kv0.2
          = kv0.2 ++ env.bulk_access_messages u (env.get_context_for_message mn) := by
        simp [extendBucket, hmin, hst]
      rw [hext]
      refine ⟨by simp [hne0], ?_⟩
      intro m hm
      rcases List.mem_append.mp hm with h2 | h2
      · exact hporig m h2
      · have hc := hacc u (env.get_context_for_message mn) m h2
        rcases hctx mn m hc with ⟨hr, ht⟩
        have := hporig mn hmn_mem
        rw [← this]
        simp only [pairOf]
        rw [hr, ht]
    · simp only [Bool.not_eq_true] at hst
      have hext : extendBucket env u kv0.2 = kv0.2 := by
        simp [extendBucket, hmin, hst]
      rw [hext]
      exact ⟨hne0, hporig⟩

/-- C10: the emitter requires every message it is handed to share one
single (recipient id, lower-cased topic) pair, failing fast through its
opening assertion when the list mixes pairs — before any payload is
assembled; and under the bucketer's partitioning (context messages
sharing their anchor's recipient and topic, accessible context being a
subset, and direct messages carrying the empty topic) the assertion's
condition holds for every emitted call, so the branch is unreachable. -/
theorem do_send_recipient_assertion :
    (∀ (env : Externals) (settings : Settings) (user_profile : UserProfile)
       (missed : List MsgInfo) (count : Nat),
      2 ≤ ((missed.map (fun mi => pairOf mi.message)).dedup).length →
      do_send_missedmessage_events_reply_in_zulip env settings user_profile missed count
        = .error assertMultipleRecipients)
  ∧ (∀ (env : Externals) (user_profile_id : Nat) (events : List MMEvent)
       (fetched : List Message),
      (∀ m c, c ∈ env.get_context_for_message m →
        c.recipient_id = m.recipient_id ∧ pyLower c.topic = pyLower m.topic) →
      (∀ (u2 : UserProfile) (l : List Message),
        ∀ c ∈ env.bulk_access_messages u2 l, c ∈ l) →
      (∀ m ∈ fetched, m.recipient.type = .personal → m.topic = "") →
      ∀ call ∈ handle_emit_calls env user_profile_id events fetched,
        ((call.1.map (fun mi => pairOf mi.message)).dedup).length = 1) := by
  constructor
  · intro env settings user_profile missed count h
    rcases missed with - | ⟨m0, rest⟩
    · simp at h
    · simp only [do_send_missedmessage_events_reply_in_zulip]
      rw [if_pos (by omega)]
  · intro env user_profile_id events fetched hctx hacc hpm call hcall
    simp only [handle_emit_calls] at hcall
    set u := env.get_user_profile_by_id user_profile_id with hu
    set msgs := filtered_messages events fetched with hmsgs
    by_cases hbot : u.is_bot
    · rw [if_pos hbot] at hcall
      simp at hcall
    · rw [if_neg hbot] at hcall
      by_cases hen : u.enable_offline_email_notifications
      · rw [if_neg (by simp [hen])] at hcall
        by_cases hempty : msgs.isEmpty
        · rw [if_pos hempty] at hcall
          simp at hcall
        · rw [if_neg hempty] at hcall
          simp only [List.mem_map] at hcall
          rcases hcall with ⟨tup, htup, hcall⟩
          have htup2 : tup ∈ bucket_tups env u msgs :=
            (sorted_bucket_tups_perm env u msgs).subset htup
          simp only [bucket_tups, List.mem_map] at htup2
          rcases htup2 with ⟨kv, hkv, htup2⟩
          have hpm2 : ∀ m ∈ msgs, m.recipient.type = .personal → m.topic = "" := by
            intro m hm
            exact hpm m (List.mem_of_mem_filter hm)
          rcases extended_bucket_pair env u msgs hctx hacc hpm2 kv hkv with ⟨hne, hpair⟩
          have hlk : bucketLookup tup.1 (extended_buckets env u msgs) = kv.2 := by
            rw [← htup2]
            exact bucketLookup_extended env u msgs kv hkv
          rw [← hcall]
          simp only [hlk]
          have hall : ∀ x ∈ (unique_messages (message_ids_of_events events) kv.2).map
              (fun mi => pairOf mi.message), x = pairKey kv.1 := by
            intro x hx
            simp only [List.mem_map] at hx
            rcases hx with ⟨mi, hmi, hx⟩
            rw [← hx]
            exact hpair mi.message (unique_messages_mem _ kv.2 mi hmi)
          have hnen : (unique_messages (message_ids_of_events events) kv.2).map
              (fun mi => pairOf mi.message) ≠ [] := by
            simp only [ne_eq, List.map_eq_nil_iff]
            exact unique_messages_ne_nil _ kv.2 hne
          rw [dedup_eq_singleton_of_all_eq _ (pairKey kv.1) hnen hall]
          rfl
      · rw [if_pos (by simp [hen])] at hcall
        simp at hcall

/-- The Django settings instantiation used by the concrete witnesses. -/
def settingsA : Settings := ⟨"", false, "noreply@z"⟩

/-- Witness for C10: an emitter call whose two messages live in two
different topics of one stream hits the assertion. -/
theorem do_send_recipient_assertion_witness :
    do_send_missedmessage_events_reply_in_zulip trivEnv settingsA userA
      [⟨⟨21, ⟨2, "Alice", "a@z"⟩, recS, "alpha", 1, "m1", "<p>m1</p>"⟩, none, none⟩,
       ⟨⟨22, ⟨2, "Alice", "a@z"⟩, recS, "beta", 2, "m2", "<p>m2</p>"⟩, none, none⟩] 2
      = .error assertMultipleRecipients :=
  do_send_recipient_assertion.1 trivEnv settingsA userA
    [⟨⟨21, ⟨2, "Alice", "a@z"⟩, recS, "alpha", 1, "m1", "<p>m1</p>"⟩, none, none⟩,
     ⟨⟨22, ⟨2, "Alice", "a@z"⟩, recS, "beta", 2, "m2", "<p>m2</p>"⟩, none, none⟩] 2
    (by decide)

/-- The value `get_narrow_url` returns when called without precomputed
arguments; it never fails there. -/
def narrow_url_value (env : Externals) (u : UserProfile) (m : Message) : String :=
  match m.recipient.type with
  | .personal => env.personal_narrow_url u.realm m.sender
  | .huddle =>
    env.huddle_narrow_url u.realm
      (((env.get_display_recipient m.recipient).filter (fun r => r.id ≠ u.id)).map
        (fun r => r.id))
  | .stream => env.topic_narrow_url u.realm (env.streamById m.recipient.type_id) m.topic

theorem get_narrow_url_none_none (env : Externals) (u : UserProfile) (m : Message) :
    get_narrow_url env u m none none = .ok (narrow_url_value env u m) := by
  rcases hrec : m.recipient.type <;> simp [get_narrow_url, narrow_url_value, hrec]

theorem sendAsUserOverride_context_fields (settings : Settings)
    (senders : List UserBrief) (from_name0 : String) (ctx : NotifContext) :
    ((sendAsUserOverride settings senders from_name0 ctx).2.2.messages,
     (sendAsUserOverride settings senders from_name0 ctx).2.2.sender_str,
     (sendAsUserOverride settings senders from_name0 ctx).2.2.show_message_content,
     (sendAsUserOverride settings senders from_name0 ctx).2.2.message_content_disabled_by_user,
     (sendAsUserOverride settings senders from_name0 ctx).2.2.message_content_disabled_by_realm)
      = (ctx.messages, ctx.sender_str, ctx.show_message_content,
         ctx.message_content_disabled_by_user, ctx.message_content_disabled_by_realm) := by
  simp only [sendAsUserOverride]
  split
  · split <;> rfl
  · rfl

/-- Two collaborator bundles that agree on everything except the
content-rendering primitives (`lxml` parsing and serialising, `urljoin`,
BeautifulSoup, the two `re.sub` calls and the emoji-code search). -/
def renderEquiv (env env2 : Externals) : Prop :=
  env2.personal_narrow_url = env.personal_narrow_url
  ∧ env2.huddle_narrow_url = env.huddle_narrow_url
  ∧ env2.topic_narrow_url = env.topic_narrow_url
  ∧ env2.stream_narrow_url = env.stream_narrow_url
  ∧ env2.get_display_recipient = env.get_display_recipient
  ∧ env2.streamById = env.streamById
  ∧ env2.translate = env.translate
  ∧ env2.get_context_for_message = env.get_context_for_message
  ∧ env2.bulk_access_messages = env.bulk_access_messages
  ∧ env2.get_mentioned_user_group_name = env.get_mentioned_user_group_name
  ∧ env2.create_missed_message_address = env.create_missed_message_address
  ∧ env2.one_click_unsubscribe_link = env.one_click_unsubscribe_link
  ∧ env2.get_topic_resolution_and_bare_name = env.get_topic_resolution_and_bare_name
  ∧ env2.get_user_profile_by_id = env.get_user_profile_by_id

/-- C6: whenever the user or the organization disabled message content in
email notifications, the emitted payload has an empty message list, an
empty sender string, and one flag per policy recording which policy
caused the suppression, at least one of them set; this is a normal
payload, not an error, for every valid bucket, and the content rewriters
are not invoked — the payload does not depend on the rendering
collaborators at all. -/
theorem do_send_content_suppression (env : Externals) (settings : Settings)
    (user_profile : UserProfile) (m0 : MsgInfo) (rest : List MsgInfo) (count : Nat)
    (hrec : (((m0 :: rest).map (fun mi => pairOf mi.message)).dedup).length = 1)
    (hvalid : m0.message.recipient.type = .huddle
      ∨ m0.message.recipient.type = .personal
      ∨ ((m0 :: rest).map (fun mi => mi.trigger)).contains (some "mentioned") = true
      ∨ ((m0 :: rest).map (fun mi => mi.trigger)).contains (some "wildcard_mentioned") = true
      ∨ ((m0 :: rest).map (fun mi => mi.trigger)).contains (some "stream_email_notify") = true)
    (hsupp : message_content_allowed_in_missedmessage_emails user_profile = false) :
    ((do_send_missedmessage_events_reply_in_zulip env settings user_profile
        (m0 :: rest) count).map
        (fun p => (p.context.messages, p.context.sender_str,
          p.context.show_message_content,
          p.context.message_content_disabled_by_user,
          p.context.message_content_disabled_by_realm))
      = .ok ([], "", false,
          some (!user_profile.message_content_in_email_notifications),
          some (!user_profile.realm.message_content_allowed_in_email_notifications)))
    ∧ ((!user_profile.message_content_in_email_notifications)
        || (!user_profile.realm.message_content_allowed_in_email_notifications)) = true
    ∧ (∀ env2 : Externals, renderEquiv env env2 →
        do_send_missedmessage_events_reply_in_zulip env2 settings user_profile
            (m0 :: rest) count
          = do_send_missedmessage_events_reply_in_zulip env settings user_profile
            (m0 :: rest) count) := by
  refine ⟨?_, ?_, ?_⟩
  · simp only [do_send_missedmessage_events_reply_in_zulip, bind, Except.bind]
    rw [if_neg (by simp only [List.map_cons] at hrec; simp [hrec])]
    rw [get_narrow_url_none_none]
    by_cases t1 : (m0.message.recipient.type == RecipientType.huddle) = true
    · simp only [t1, if_true, hsupp, Bool.not_false, Except.map,
        sendAsUserOverride_context_fields]
    · simp only [t1, Bool.false_eq_true, if_false]
      by_cases t2 : (m0.message.recipient.type == RecipientType.personal) = true
      · simp only [t2, if_true, hsupp, Bool.not_false, Except.map,
          sendAsUserOverride_context_fields]
      · simp only [t2, Bool.false_eq_true, if_false]
        by_cases t3 : (((m0 :: rest).map (fun mi => mi.trigger)).contains (some "mentioned")
            || ((m0 :: rest).map (fun mi => mi.trigger)).contains (some "wildcard_mentioned")
            || ((m0 :: rest).map (fun mi => mi.trigger)).contains (some "stream_email_notify"))
            = true
        · rw [if_pos t3]
          simp only [if_true, hsupp, Bool.not_false, Except.map,
            sendAsUserOverride_context_fields]
        · exfalso
          simp only [Bool.or_eq_true, not_or] at t3
          rcases hvalid with h | h | h | h | h
          · exact t1 (by simp [h])
          · exact t2 (by simp [h])
          · exact t3.1.1 h
          · exact t3.1.2 h
          · exact t3.2 h
  · simp only [message_content_allowed_in_missedmessage_emails, Bool.and_eq_false_iff]
      at hsupp
    rcases hsupp with h | h <;> simp [h]
  · intro env2 henv
    obtain ⟨h1, h2, h3, h4, h5, h6, h7, h8, h9, h10, h11, h12, h13, h14⟩ := henv
    simp only [do_send_missedmessage_events_reply_in_zulip, get_narrow_url,
      build_message_list, hsupp, Bool.not_false, eq_self_iff_true, if_true,
      h1, h2, h3, h4, h5, h6, h7, h8, h9, h10, h11, h12, h13, h14]

/-- A user who disabled message content in email notifications. -/
def userS : UserProfile :=
  ⟨1, "Me", ⟨"https://z", "Realm", true⟩, "en", "google", false, true, false, true⟩

/-- A one-element personal-message bucket for the C6 witness. -/
def miS : MsgInfo := ⟨msgA, some "private_message", none⟩

/-- Witness for C6 at a concrete suppressed personal-message input. -/
theorem do_send_content_suppression_witness :
    message_content_allowed_in_missedmessage_emails userS = false
    ∧ (([miS].map (fun mi => pairOf mi.message)).dedup).length = 1
    ∧ ((do_send_missedmessage_events_reply_in_zulip trivEnv settingsA userS [miS] 1).map
        (fun p => (p.context.messages, p.context.sender_str,
          p.context.show_message_content,
          p.context.message_content_disabled_by_user,
          p.context.message_content_disabled_by_realm))
      = .ok ([], "", false, some true, some false)) :=
  ⟨rfl, by decide, by
    have h := do_send_content_suppression trivEnv settingsA userS miS [] 1
      (by decide) (Or.inr (Or.inl rfl)) rfl
    exact h.1⟩
